import Mathlib

/-!
Verification of the pipe-audit validation-and-audit engine.

This file is a shallow embedding, in Lean 4, of the parts of the
`pipa` / `pipa-core` crates that the audited properties speak about:

* the encrypted hash ledger and its sealing operation
  (`src/pipa/src/logging/ledger.rs`),
* the audit-log writers (`src/pipa/src/logging/writer.rs` and
  `src/pipa-core/src/logging/writer.rs`),
* ledger verification (`src/pipa/src/logging/verify.rs` and
  `src/pipa-core/src/logging/verify.rs`),
* the contract-validation runner (`src/pipa/src/engine/contracts/runner.rs`
  and `src/pipa/src/engine/orchestration.rs`),
* the `OutlierSigma` column validator
  (`src/pipa/src/validators/column/outlier_sigma.rs`).

Modelling conventions:

* Rust strings and file contents are `List Char` (`Str` below), so that the
  substring/semantics of `str::contains`, `str::lines` and
  `str::split_whitespace` can be stated exactly.
* The AES-GCM encryption around the ledger blob is a bijection between the
  ledger file and its plaintext (decrypt ∘ encrypt = id on success), so the
  ledger state is modelled directly by its decrypted plaintext.
* SHA-256 (the external `sha2` crate) and the wall clock are collaborators:
  they enter every definition as explicit function parameters `hash` and
  `clock` / explicit date strings.
* IEEE-754 `f64` arithmetic in the `OutlierSigma` validator is idealised as
  rational arithmetic, with the `f64::sqrt` primitive abstracted as a
  function parameter.
-/

namespace PipeAudit

/-- Characters of a Rust string / file content. -/
abbrev Str := List Char

/-- Rust `str::contains(needle)`: `needle` occurs contiguously in `hay`. -/
def strContains (hay needle : Str) : Bool := decide (needle <:+: hay)

/-- Unicode-whitespace test restricted to the ASCII whitespace that can occur
in ledger material; used to model `str::split_whitespace`. -/
def isWsChar (c : Char) : Bool := c == ' ' || c == '\t' || c == '\n' || c == '\r'

/-- Worker for `splitWhitespace`; `acc` is the current word, reversed. -/
def splitWsGo : Str → Str → List Str
  | [], acc => if acc.isEmpty then [] else [acc.reverse]
  | c :: cs, acc =>
    if isWsChar c then
      if acc.isEmpty then splitWsGo cs [] else acc.reverse :: splitWsGo cs []
    else splitWsGo cs (c :: acc)

/-- Rust `str::split_whitespace().collect()`: maximal non-whitespace runs. -/
def splitWhitespace (l : Str) : List Str := splitWsGo l []

/-- Split into chunks at every occurrence of `sep`; the result always has one
more chunk than there are separators (so it is never `[]`). -/
def splitChunks (sep : Char) : Str → List Str
  | [] => [[]]
  | c :: cs =>
    match splitChunks sep cs with
    | [] => [[c]]
    | h :: t => if c = sep then [] :: h :: t else (c :: h) :: t

/-- Rust `str::lines()`: split at `'\n'`, a trailing newline producing no
trailing empty line.  (The sources never write `'\r'`.) -/
def rustLines (p : Str) : List Str :=
  let cs := splitChunks '\n' p
  if cs.getLast? = some [] then cs.dropLast else cs

/-- Newline-terminated concatenation of lines: the shape of every ledger
plaintext the writer produces. -/
def joinNl (ls : List Str) : Str := (ls.map (fun l => l ++ ['\n'])).flatten

/-! The logs directory is a finite map from filename to file content;
`read_dir` enumeration order is the list order. -/

abbrev Disk := List (Str × Str)

/-- File lookup by name (`log_path.exists()` + reading the bytes). -/
def diskLookup (d : Disk) (f : Str) : Option Str :=
  (d.find? (fun e => e.fst == f)).map (fun e => e.snd)

/-- Appending bytes to a file, creating it if missing
(`OpenOptions::new().create(true).append(true)`). -/
def appendFile : Disk → Str → Str → Disk
  | [], f, s => [(f, s)]
  | e :: rest, f, s =>
    if e.fst == f then (e.fst, e.snd ++ s) :: rest else e :: appendFile rest f s

/-! Ledger (`src/pipa/src/logging/ledger.rs`). -/

/-- Body of one ledger record: `format!("{} {} {}", timestamp, filename, hash)`
without the trailing newline. -/
def ledgerLine (ts fname hash : Str) : Str := ts ++ ' ' :: (fname ++ ' ' :: hash)

/-- `append_to_ledger` (ledger.rs:93-98): decrypt, append one record line,
re-encrypt.  On the plaintext this is appending `"<ts> <fname> <hash>\n"`. -/
def append_to_ledger (ts fname hash : Str) (p : Str) : Str :=
  p ++ ledgerLine ts fname hash ++ ['\n']

/-- `ledger_contains` (ledger.rs:101-105): substring test of the filename
against the whole decrypted plaintext. -/
def ledger_contains (p : Str) (fname : Str) : Bool := strContains p fname

/-- Characters of the literal `"audit-"`. -/
def auditPre : Str := "audit-".toList

/-- Characters of the literal `".jsonl"`. -/
def jsonlSuf : Str := ".jsonl".toList

/-- The filename filter of `seal_unsealed_logs`:
`fname.starts_with("audit-") && fname.ends_with(".jsonl")`. -/
def isAuditShardName (f : Str) : Bool :=
  List.isPrefixOf auditPre f && List.isSuffixOf jsonlSuf f

/-- `format!("audit-{}.jsonl", date)`: the daily shard filename. -/
def shardFileName (date : Str) : Str := auditPre ++ date ++ jsonlSuf

/-- Condition under which `seal_unsealed_logs` (ledger.rs:108-123) seals the
file named `f` against ledger plaintext `p`: it is an audit shard, its name
does not contain today's date, and it is not yet in the ledger. -/
def sealWants (today : Str) (p : Str) (f : Str) : Bool :=
  isAuditShardName f && !(strContains f today) && !(ledger_contains p f)

/-- `seal_unsealed_logs` (ledger.rs:108-123): walk the logs directory and, for
every shard that `sealWants`, append `"<clock f> <f> <hash content>\n"` to the
ledger plaintext.  `hash` models `compute_sha256`, `clock` the `Utc::now()`
timestamp drawn when the file is sealed. -/
def seal_unsealed_logs (hash clock : Str → Str) (today : Str) : Disk → Str → Str
  | [], p => p
  | e :: fs, p =>
    if sealWants today p e.fst then
      seal_unsealed_logs hash clock today fs
        (append_to_ledger (clock e.fst) e.fst (hash e.snd) p)
    else
      seal_unsealed_logs hash clock today fs p

/-- The filenames for which `seal_unsealed_logs` appends a record, in order. -/
def sealAppendedNames (hash clock : Str → Str) (today : Str) : Disk → Str → List Str
  | [], _ => []
  | e :: fs, p =>
    if sealWants today p e.fst then
      e.fst :: sealAppendedNames hash clock today fs
        (append_to_ledger (clock e.fst) e.fst (hash e.snd) p)
    else
      sealAppendedNames hash clock today fs p

/-! Audit-log writers. -/

/-- Mutable logging state: files under `logs/` plus the decrypted content of
`logs/hash_ledger.enc`. -/
structure LogState where
  disk : Disk
  ledger : Str
deriving DecidableEq, Repr

/-- `log_event` of the `pipa` crate (`src/pipa/src/logging/writer.rs:30-44`):
serialize the entry to one JSON line (`json` is the serialized entry, which
contains no raw newline) and append it to today's shard.  It does not seal. -/
def log_event_pipa (json today : Str) (st : LogState) : LogState :=
  { st with disk := appendFile st.disk (shardFileName today) (json ++ ['\n']) }

/-- `log_event` of the `pipa-core` crate
(`src/pipa-core/src/logging/writer.rs:37-53`): append the JSON line to today's
shard, then `seal_unsealed_logs(&PathBuf::from("logs"), &today)`. -/
def log_event_core (hash clock : Str → Str) (json today : Str) (st : LogState) : LogState :=
  let disk1 := appendFile st.disk (shardFileName today) (json ++ ['\n'])
  { disk := disk1, ledger := seal_unsealed_logs hash clock today disk1 st.ledger }

/-! Verification (`src/pipa/src/logging/verify.rs`,
`src/pipa-core/src/logging/verify.rs`). -/

/-- Per-file verification status. -/
inductive FileStatus
  | verified
  | mismatched
  | missing
  | malformed
  | unsealed
deriving DecidableEq, Repr

/-- One `FileVerification` record. -/
structure FileVerification where
  filename : Str
  status : FileStatus
  stored_hash : Option Str
  computed_hash : Option Str
deriving DecidableEq, Repr

/-- The `VerificationSummary` aggregate. -/
structure VerificationSummary where
  verified : Nat
  mismatched : Nat
  missing : Nat
  malformed : Nat
  unsealed : Nat
  files : List FileVerification
deriving DecidableEq, Repr

/-- The freshly initialised all-zero summary. -/
def emptySummary : VerificationSummary := ⟨0, 0, 0, 0, 0, []⟩

/-- Record one per-file result: bump the counter of its status and push the
entry, exactly as each `summary.<status> += 1; summary.files.push(...)` pair
in the sources. -/
def pushEntry (s : VerificationSummary) (e : FileVerification) : VerificationSummary :=
  { verified := s.verified + (if e.status = .verified then 1 else 0)
    mismatched := s.mismatched + (if e.status = .mismatched then 1 else 0)
    missing := s.missing + (if e.status = .missing then 1 else 0)
    malformed := s.malformed + (if e.status = .malformed then 1 else 0)
    unsealed := s.unsealed + (if e.status = .unsealed then 1 else 0)
    files := s.files ++ [e] }

/-- Value of a digit string (most significant first). -/
def digitsVal (s : Str) : Nat := s.foldl (fun n c => n * 10 + (c.toNat - 48)) 0

/-- Drop leading whitespace, as chrono does before every numeric field
(`s.trim_left()` in its `Numeric` parsing arm). -/
def dropLeadingWs (s : Str) : Str := s.dropWhile (fun c => isWsChar c)

/-- Consume up to `maxd` leading ASCII digits: the digit run and the rest. -/
def takeDigits (maxd : Nat) : Str → Str × Str
  | [] => ([], [])
  | c :: cs =>
    if maxd = 0 then ([], c :: cs)
    else if c.isDigit then
      let r := takeDigits (maxd - 1) cs
      (c :: r.fst, r.snd)
    else ([], c :: cs)

/-- chrono `scan::number(s, 1, width)`: one to `width` digits, greedily. -/
def scanUnsigned (width : Nat) (s : Str) : Option (Nat × Str) :=
  let t := takeDigits width s
  if t.fst.isEmpty then none else some (digitsVal t.fst, t.snd)

/-- chrono `scan::number(s, 1, usize::MAX)`: one or more digits, greedily. -/
def scanUnsignedAll (s : Str) : Option (Nat × Str) :=
  let d := s.takeWhile (fun c => c.isDigit)
  if d.isEmpty then none
  else some (digitsVal d, s.dropWhile (fun c => c.isDigit))

/-- chrono parsing of the signed `%Y` field (default width 4): leading
whitespace is dropped; an explicit `-`/`+` sign allows unlimited digits,
otherwise at most 4 digits are consumed. -/
def scanYear (s : Str) : Option (Int × Str) :=
  match dropLeadingWs s with
  | '-' :: rest => (scanUnsignedAll rest).map (fun r => (-(r.fst : Int), r.snd))
  | '+' :: rest => (scanUnsignedAll rest).map (fun r => ((r.fst : Int), r.snd))
  | s1 => (scanUnsigned 4 s1).map (fun r => ((r.fst : Int), r.snd))

/-- chrono parsing of the unsigned `%m` / `%d` fields (width 2): leading
whitespace dropped, then one or two digits. -/
def scanField2 (s : Str) : Option (Nat × Str) := scanUnsigned 2 (dropLeadingWs s)

/-- chrono `Item::Literal("-")`: the next character must be the dash. -/
def expectDash : Str → Option Str
  | '-' :: rest => some rest
  | _ => none

/-- Proleptic-Gregorian leap-year rule on astronomical (signed) years, as
chrono applies it. -/
def isLeapYear (y : Int) : Bool := (y % 4 == 0 && y % 100 != 0) || y % 400 == 0

/-- Days in a month. -/
def daysInMonth (y : Int) (m : Nat) : Nat :=
  if m = 2 then (if isLeapYear y then 29 else 28)
  else if m = 4 ∨ m = 6 ∨ m = 9 ∨ m = 11 then 30
  else 31

/-- A calendar date (signed proleptic-Gregorian year). -/
structure Ymd where
  y : Int
  m : Nat
  d : Nat
deriving DecidableEq, Repr

/-- Model of `chrono::NaiveDate::parse_from_str(d, "%Y-%m-%d")` (the external
`chrono` collaborator): scan a signed year (leading whitespace allowed, an
explicit sign lifts the 4-digit cap), a literal dash, a 1-2 digit month, a
dash, a 1-2 digit day; the whole input must be consumed, and the fields must
form a valid calendar date inside chrono's `NaiveDate` year range
(`MIN_YEAR = i32::MIN >> 13 = -262144`, `MAX_YEAR = i32::MAX >> 13 = 262143`). -/
def parseDateYmd (s : Str) : Option Ymd :=
  match scanYear s with
  | none => none
  | some (y, s1) =>
    match expectDash s1 with
    | none => none
    | some s2 =>
      match scanField2 s2 with
      | none => none
      | some (m, s3) =>
        match expectDash s3 with
        | none => none
        | some s4 =>
          match scanField2 s4 with
          | none => none
          | some (d, s5) =>
            if s5.isEmpty then
              if -262144 ≤ y ∧ y ≤ 262143 ∧ 1 ≤ m ∧ m ≤ 12 ∧ 1 ≤ d ∧ d ≤ daysInMonth y m
              then some ⟨y, m, d⟩ else none
            else none

/-- Decimal digits of `n`. -/
def natToStr (n : Nat) : Str := Nat.toDigits 10 n

/-- Left-pad with `'0'` to width `w`. -/
def padLeftZeros (w : Nat) (s : Str) : Str := List.replicate (w - s.length) '0' ++ s

/-- chrono formatting of `%Y`: negative years print a `-` sign and years
beyond 9999 an explicit `+`, otherwise zero-padded to 4 digits (ISO 8601). -/
def formatYear (y : Int) : Str :=
  if y < 0 then '-' :: padLeftZeros 4 (natToStr y.natAbs)
  else if y > 9999 then '+' :: natToStr y.natAbs
  else padLeftZeros 4 (natToStr y.natAbs)

/-- Model of `date.format("%Y-%m-%d").to_string()`. -/
def formatYmd (x : Ymd) : Str :=
  formatYear x.y ++ '-' :: (padLeftZeros 2 (natToStr x.m) ++ '-' :: padLeftZeros 2 (natToStr x.d))

/-- `verify_date` (identical in `src/pipa/src/logging/verify.rs:105-194` and
`src/pipa-core/src/logging/verify.rs:156-244`).  `hash` models
`compute_sha256`, `logsDirExists` the `logs/` existence test, `ledgerPlain`
the decrypted ledger, `yesterday` the default date. -/
def verify_date (hash : Str → Str) (logsDirExists : Bool) (disk : Disk)
    (ledgerPlain : Str) (yesterday : Str) (date : Option Str) : VerificationSummary :=
  if !logsDirExists then emptySummary else
  match (match date with
         | some d => (parseDateYmd d).map formatYmd
         | none => some yesterday) with
  | none => emptySummary
  | some target =>
    let logFilename := shardFileName target
    if ledgerPlain.isEmpty then emptySummary else
    match diskLookup disk logFilename with
    | none => pushEntry emptySummary ⟨logFilename, .missing, none, none⟩
    | some content =>
      match (rustLines ledgerPlain).find? (fun l => strContains l logFilename) with
      | none => pushEntry emptySummary ⟨logFilename, .unsealed, none, none⟩
      | some line =>
        match splitWhitespace line with
        | _ :: _ :: stored :: _ =>
          let computed := hash content
          if stored == computed then
            pushEntry emptySummary ⟨logFilename, .verified, some stored, some computed⟩
          else
            pushEntry emptySummary ⟨logFilename, .mismatched, some stored, some computed⟩
        | _ => pushEntry emptySummary ⟨logFilename, .malformed, none, none⟩

/-- Classification of one ledger line by the `pipa` crate's `verify_all`
(`src/pipa/src/logging/verify.rs:54-99`, loop body). -/
def classifyLedgerLine (hash : Str → Str) (disk : Disk) (line : Str) : FileVerification :=
  match splitWhitespace line with
  | _ :: fname :: stored :: _ =>
    match diskLookup disk fname with
    | none => ⟨fname, .missing, some stored, none⟩
    | some content =>
      let computed := hash content
      if stored == computed then ⟨fname, .verified, some stored, some computed⟩
      else ⟨fname, .mismatched, some stored, some computed⟩
  | _ => ⟨line, .malformed, none, none⟩

/-- `verify_all` of the `pipa` crate (`src/pipa/src/logging/verify.rs:33-102`):
one entry per ledger line; files on disk that the ledger does not name are
never visited. -/
def verify_all_pipa (hash : Str → Str) (logsDirExists : Bool) (disk : Disk)
    (ledgerPlain : Str) : VerificationSummary :=
  if !logsDirExists then emptySummary
  else if ledgerPlain.isEmpty then emptySummary
  else (rustLines ledgerPlain).foldl
    (fun s l => pushEntry s (classifyLedgerLine hash disk l)) emptySummary

/-! The `pipa-core` `verify_all` uses a `HashMap<String, String>`; modelled as
an association list with insert-overwrite, lookup and remove.  (HashMap
iteration order is arbitrary; the list order is one admissible order, and the
audited properties are order-insensitive.) -/

abbrev HMap := List (Str × Str)

/-- `HashMap::insert` (replaces an existing binding). -/
def mapInsert (m : HMap) (k v : Str) : HMap :=
  match m with
  | [] => [(k, v)]
  | e :: rest => if e.fst == k then (k, v) :: rest else e :: mapInsert rest k v

/-- `HashMap::get`. -/
def mapLookup (m : HMap) (k : Str) : Option Str :=
  (m.find? (fun e => e.fst == k)).map (fun e => e.snd)

/-- `HashMap::remove`. -/
def mapRemove (m : HMap) (k : Str) : HMap := m.filter (fun e => !(e.fst == k))

/-- Phase 1 of `pipa-core` `verify_all` (verify.rs:63-82): read the ledger
lines into the map, pushing a `Malformed` entry for each short line. -/
def coreLedgerPhase (m : HMap) (s : VerificationSummary) : List Str → HMap × VerificationSummary
  | [] => (m, s)
  | line :: rest =>
    match splitWhitespace line with
    | _ :: fname :: stored :: _ => coreLedgerPhase (mapInsert m fname stored) s rest
    | _ => coreLedgerPhase m (pushEntry s ⟨line, .malformed, none, none⟩) rest

/-- Phase 2 of `pipa-core` `verify_all` (verify.rs:100-139): walk the disk;
sealed files are hashed and removed from the map, unsealed ones reported. -/
def coreDiskPhase (hash : Str → Str) : HMap → VerificationSummary → Disk → HMap × VerificationSummary
  | m, s, [] => (m, s)
  | m, s, e :: rest =>
    match mapLookup m e.fst with
    | some stored =>
      let computed := hash e.snd
      let fv : FileVerification :=
        if stored == computed then ⟨e.fst, .verified, some stored, some computed⟩
        else ⟨e.fst, .mismatched, some stored, some computed⟩
      coreDiskPhase hash (mapRemove m e.fst) (pushEntry s fv) rest
    | none => coreDiskPhase hash m (pushEntry s ⟨e.fst, .unsealed, none, some (hash e.snd)⟩) rest

/-- Phase 3 of `pipa-core` `verify_all` (verify.rs:87-95 and 143-151): every
binding still in the map is a missing file. -/
def coreMissingPhase (s : VerificationSummary) (m : HMap) : VerificationSummary :=
  m.foldl (fun s e => pushEntry s ⟨e.fst, .missing, some e.snd, none⟩) s

/-- `verify_all` of the `pipa-core` crate
(`src/pipa-core/src/logging/verify.rs:56-154`). -/
def verify_all_core (hash : Str → Str) (logsDirExists : Bool) (disk : Disk)
    (ledgerPlain : Str) : VerificationSummary :=
  let ms := coreLedgerPhase [] emptySummary (rustLines ledgerPlain)
  if !logsDirExists then coreMissingPhase ms.snd ms.fst
  else
    let ms2 := coreDiskPhase hash ms.fst ms.snd disk
    coreMissingPhase ms2.snd ms2.fst

/-! Contract-validation runner (`src/pipa/src/engine/contracts/runner.rs` and
`src/pipa/src/engine/orchestration.rs`).  All I/O collaborators (contract
store, profile store, connectors, driver, `execute_validation`) enter as
oracle fields of `RunEnv`; the audit events written through `log_action` /
`log_and_print` are collected as a list of event names. -/

/-- One `RuleResult` (`src/pipa/src/logging/schema.rs`). -/
structure RuleResult where
  column : String
  rule : String
  result : String
  details : Option String
deriving DecidableEq, Repr

/-- `ValidationOutcome` (runner.rs:18-23). -/
structure ValidationOutcome where
  passed : Bool
  pass_count : Nat
  fail_count : Nat
  results : List RuleResult
deriving DecidableEq, Repr

/-- The `[source]` section of a contract (`src/pipa/src/contracts/schema.rs`). -/
structure SourceCfg where
  type : String
  location : Option String
  profile : Option String
deriving DecidableEq, Repr

/-- A `[destination]` or `[quarantine]` section. -/
structure EndpointCfg where
  type : String
  location : Option String
  profile : Option String
  format : Option String
deriving DecidableEq, Repr

/-- The parts of `SchemaContracts` the runner reads. -/
structure SchemaContracts where
  name : String
  version : String
  source : Option SourceCfg
  destination : Option EndpointCfg
  quarantine : Option EndpointCfg
deriving DecidableEq, Repr

/-- Oracles for one run: everything the runner observes from the outside
world, in the order it observes it. -/
structure RunEnv where
  /-- `Path::new(&contract_path).exists()`. -/
  contractExists : Bool
  /-- the parsed contract (`load_contract_for_file`). -/
  contracts : SchemaContracts
  /-- result of `load_profiles()`. -/
  profilesLoad : Except String Unit
  /-- result of `fetch_data_from_source` (byte count on success). -/
  fetchData : Except String Nat
  /-- audit events emitted inside `execute_validation` before it returns. -/
  execEvents : List String
  /-- result of `execute_validation`. -/
  execResult : Except String (List RuleResult)
  /-- result of `get_driver(extension)` + `driver.load(&data)`. -/
  driverLoad : Except String Unit
  /-- result of `test_profile_internal(name, profiles)` per profile name. -/
  profileTest : String → Bool
  /-- result of `FileMovement::write_success_data`. -/
  destWrite : Except String Unit
  /-- result of `FileMovement::write_quarantine_data`. -/
  quarWrite : Except String Unit

/-- `FileMovement::test_profile_connectivity` (`src/pipa/src/movement.rs:76-91`):
trivially valid for `local` / `not_moved`, otherwise test the named profile,
and invalid when no profile is named. -/
def test_profile_connectivity (profileTest : String → Bool)
    (profileName : Option String) (epType : Option String) : Bool :=
  match epType with
  | some "local" => true
  | some "not_moved" => true
  | _ =>
    match profileName with
    | some n => profileTest n
    | none => false

/-- `FileMovement::validate_profiles` (movement.rs:45-73). -/
def validate_profiles (profileTest : String → Bool) (src : Option SourceCfg)
    (dst : Option EndpointCfg) (qr : Option EndpointCfg) : Bool × Bool × Bool :=
  ( test_profile_connectivity profileTest (src.bind (fun s => s.profile))
      (src.map (fun s => s.type)),
    test_profile_connectivity profileTest (dst.bind (fun d => d.profile))
      (dst.map (fun d => d.type)),
    test_profile_connectivity profileTest (qr.bind (fun q => q.profile))
      (qr.map (fun q => q.type)) )

/-- `results.iter().filter(|r| r.result == "pass").count()` (runner.rs:90). -/
def countPass (rs : List RuleResult) : Nat := rs.countP (fun r => r.result == "pass")

/-- `results.iter().filter(|r| r.result == "fail").count()` (runner.rs:91). -/
def countFail (rs : List RuleResult) : Nat := rs.countP (fun r => r.result == "fail")

/-- The `ValidationOutcome` assembled in runner.rs:90-92 and 262-267:
`passed = (fail_count == 0)` with the counts and the full results list. -/
def mkOutcome (rs : List RuleResult) : ValidationOutcome :=
  ⟨countFail rs == 0, countPass rs, countFail rs, rs⟩

/-- The movement block of runner.rs:114-246: the audit events it emits and the
number of `FileMovement` write calls it performs. -/
def movementStep (env : RunEnv) (validationPassed : Bool)
    (destValid quarValid : Bool) : List String × Nat :=
  if validationPassed then
    match env.contracts.destination with
    | some dest =>
      if dest.type ≠ "not_moved" then
        if !destValid then (["movement_skipped"], 0)
        else
          match env.destWrite with
          | .ok _ => (["movement_success"], 1)
          | .error _ => (["movement_error"], 1)
      else ([], 0)
    | none => ([], 0)
  else
    match env.contracts.quarantine with
    | some q =>
      if q.type ≠ "not_moved" then
        if !quarValid then (["movement_skipped"], 0)
        else
          match env.quarWrite with
          | .ok _ => (["movement_quarantine"], 1)
          | .error _ => (["movement_error"], 1)
      else ([], 0)
    | none => ([], 0)

/-- Observable outcome of one runner call: audit events in emission order, the
number of connector write calls, and the returned value. -/
structure RunOutput where
  events : List String
  connectorWrites : Nat
  result : Except String (ValidationOutcome × String)
deriving Repr

/-- `run_contract_validation` (`src/pipa/src/engine/contracts/runner.rs:31-270`),
step for step: existence check, contract + profile load, source checks, start
event, fetch, `file_read` event, `execute_validation`, counting, driver load
for movement, connectivity pre-flight, movement, completion event. -/
def run_contract_validation (env : RunEnv) : RunOutput :=
  if !env.contractExists then ⟨[], 0, .error "Contract not found"⟩ else
  match env.profilesLoad with
  | .error e => ⟨[], 0, .error e⟩
  | .ok _ =>
    match env.contracts.source with
    | none => ⟨[], 0, .error "Contract missing source"⟩
    | some src =>
      match src.location with
      | none => ⟨[], 0, .error "Source missing location"⟩
      | some _ =>
        match env.fetchData with
        | .error e => ⟨["contract_validation_started"], 0, .error e⟩
        | .ok _ =>
          match env.execResult with
          | .error e =>
            ⟨["contract_validation_started", "file_read"] ++ env.execEvents, 0, .error e⟩
          | .ok results =>
            let evs := ["contract_validation_started", "file_read"] ++ env.execEvents
            let outcome := mkOutcome results
            match env.driverLoad with
            | .error e => ⟨evs, 0, .error e⟩
            | .ok _ =>
              let v := validate_profiles env.profileTest env.contracts.source
                env.contracts.destination env.contracts.quarantine
              if !v.fst then ⟨evs, 0, .error "Source profile connectivity failed"⟩
              else
                let mv := movementStep env outcome.passed v.snd.fst v.snd.snd
                ⟨evs ++ mv.fst ++ ["contract_validation_completed"], mv.snd,
                  .ok (outcome, "contract_validation_completed")⟩

/-- `run_contract_validation` of `src/pipa/src/engine/orchestration.rs:32-96`:
the same pipeline without driver reload, connectivity pre-flight or movement. -/
def run_contract_validation_orch (env : RunEnv) : RunOutput :=
  if !env.contractExists then ⟨[], 0, .error "Contract not found"⟩ else
  match env.profilesLoad with
  | .error e => ⟨[], 0, .error e⟩
  | .ok _ =>
    match env.contracts.source with
    | none => ⟨[], 0, .error "Contract missing source"⟩
    | some src =>
      match src.location with
      | none => ⟨[], 0, .error "Source missing location"⟩
      | some _ =>
        match env.fetchData with
        | .error e => ⟨["contract_validation_started"], 0, .error e⟩
        | .ok _ =>
          match env.execResult with
          | .error e =>
            ⟨["contract_validation_started", "file_read"] ++ env.execEvents, 0, .error e⟩
          | .ok results =>
            ⟨["contract_validation_started", "file_read"] ++ env.execEvents
              ++ ["contract_validation_completed"], 0,
              .ok (mkOutcome results, "contract_validation_completed")⟩

/-! The `OutlierSigma` validator
(`src/pipa/src/validators/column/outlier_sigma.rs`).  Machine floats are
idealised as rationals; `f64::sqrt` is the parameter `sqrtFn`. -/

/-- A non-null cell of a Polars column: numeric, or a value (such as a
string) that `strict_cast(&DataType::Float64)` rejects. -/
inductive CellVal
  | num (q : ℚ)
  | other
deriving DecidableEq, Repr

/-- A column is a list of nullable cells. -/
abbrev Column := List (Option CellVal)

/-- `series.strict_cast(&DataType::Float64)`: succeeds (null-preservingly)
iff every non-null cell is numeric. -/
def strictCastNumeric : Column → Option (List (Option ℚ))
  | [] => some []
  | none :: rest => (strictCastNumeric rest).map (fun t => none :: t)
  | some (.num q) :: rest => (strictCastNumeric rest).map (fun t => some q :: t)
  | some .other :: _ => none

/-- `values.mean()`: `none` iff there is no non-null value. -/
def colMean (xs : List (Option ℚ)) : Option ℚ :=
  let vs := xs.filterMap id
  if vs.isEmpty then none else some (vs.sum / (vs.length : ℚ))

/-- `values.std(1)`: sample standard deviation with the `n − 1` denominator.
polars `ChunkVar::var(ddof)` returns `None` whenever the non-null count is at
most `ddof`, so with `ddof = 1` a column with fewer than two non-null values
has no standard deviation. -/
def colStdSample (sqrtFn : ℚ → ℚ) (xs : List (Option ℚ)) : Option ℚ :=
  let vs := xs.filterMap id
  if vs.length ≤ 1 then none
  else
    let mean := vs.sum / (vs.length : ℚ)
    some (sqrtFn ((vs.map (fun x => (x - mean) ^ 2)).sum / ((vs.length : ℚ) - 1)))

/-- A validator's `ValidationReport` (`src/pipa/src/validators.rs`). -/
structure ValidationReport where
  status : String
  details : Option String
deriving DecidableEq, Repr

/-- `OutlierSigmaValidator::validate` (outlier_sigma.rs:15-63): cast, mean and
sample stdev, the `std_dev == 0.0` early pass, and the count of non-null
values with `|x − mean| > sigma · std_dev`. -/
def outlier_sigma_validate (sqrtFn : ℚ → ℚ) (sigma : ℚ) (col : Column) : ValidationReport :=
  match strictCastNumeric col with
  | none => ⟨"skipped", some "column could not be cast to a numeric type"⟩
  | some values =>
    match colMean values, colStdSample sqrtFn values with
    | some mean, some stdDev =>
      if stdDev = 0 then ⟨"pass", some "standard deviation is zero; no outliers possible"⟩
      else
        let threshold := sigma * stdDev
        let outlierCount := (values.filterMap id).countP (fun x => decide (|x - mean| > threshold))
        if outlierCount > 0 then
          ⟨"fail", some ("outliers=" ++ toString outlierCount ++ ", sigma=" ++ toString sigma)⟩
        else ⟨"pass", none⟩
    | _, _ => ⟨"skipped", some "mean or standard deviation could not be calculated"⟩

/-- Number of per-file entries with a given status. -/
def statusCount (st : FileStatus) (fs : List FileVerification) : Nat :=
  fs.countP (fun e => e.status == st)

/-- The five aggregate counters agree with the per-file entries. -/
def countersMatch (s : VerificationSummary) : Prop :=
  s.verified = statusCount .verified s.files ∧
  s.mismatched = statusCount .mismatched s.files ∧
  s.missing = statusCount .missing s.files ∧
  s.malformed = statusCount .malformed s.files ∧
  s.unsealed = statusCount .unsealed s.files

/-! Helper lemmas: substrings, whitespace splitting, lines. -/

theorem strContains_iff {hay needle : Str} :
    strContains hay needle = true ↔ needle <:+: hay := by
  simp [strContains]

theorem infix_append_right {l p : Str} (q : Str) (h : l <:+: p) : l <:+: p ++ q := by
  obtain ⟨s, t, rfl⟩ := h
  exact ⟨s, t ++ q, by simp⟩

theorem infix_of_middle (s l t : Str) : l <:+: s ++ l ++ t := ⟨s, t, rfl⟩

theorem strContains_append_right {p : Str} (q : Str) {f : Str}
    (h : strContains p f = true) : strContains (p ++ q) f = true :=
  strContains_iff.mpr (infix_append_right q (strContains_iff.mp h))

/-! Helper lemmas: sealing. -/

theorem seal_extends (hash clock : Str → Str) (today : Str) :
    ∀ (fs : Disk) (p : Str), ∃ s, seal_unsealed_logs hash clock today fs p = p ++ s := by
  intro fs
  induction fs with
  | nil => exact fun p => ⟨[], by simp [seal_unsealed_logs]⟩
  | cons e fs ih =>
    intro p
    by_cases h : sealWants today p e.fst = true
    · obtain ⟨s, hs⟩ := ih (append_to_ledger (clock e.fst) e.fst (hash e.snd) p)
      refine ⟨(ledgerLine (clock e.fst) e.fst (hash e.snd) ++ ['\n']) ++ s, ?_⟩
      rw [seal_unsealed_logs, if_pos h, hs, append_to_ledger]
      simp [List.append_assoc]
    · obtain ⟨s, hs⟩ := ih p
      refine ⟨s, ?_⟩
      rw [seal_unsealed_logs, if_neg h, hs]

theorem seal_preserves_contains (hash clock : Str → Str) (today : Str)
    (fs : Disk) (p : Str) {f : Str} (h : strContains p f = true) :
    strContains (seal_unsealed_logs hash clock today fs p) f = true := by
  obtain ⟨s, hs⟩ := seal_extends hash clock today fs p
  rw [hs]
  exact strContains_append_right s h

theorem contains_append_to_ledger (ts f h : Str) (p : Str) :
    strContains (append_to_ledger ts f h p) f = true := by
  refine strContains_iff.mpr ?_
  refine ⟨p ++ ts ++ [' '], ' ' :: h ++ ['\n'], ?_⟩
  simp [append_to_ledger, ledgerLine]

theorem ledger_contains_append_to_ledger {p f : Str} (ts g h : Str)
    (hc : ledger_contains p f = true) :
    ledger_contains (append_to_ledger ts g h p) f = true := by
  rw [append_to_ledger, ledger_contains]
  exact strContains_append_right _ (strContains_append_right _ hc)

theorem sealWants_false_of_contains {today p f : Str}
    (hc : ledger_contains p f = true) : sealWants today p f = false := by
  simp [sealWants, hc]

theorem sealWants_parts {today p f : Str} (hw : sealWants today p f = true) :
    isAuditShardName f = true ∧ strContains f today = false ∧
      ledger_contains p f = false := by
  have h := hw
  simp only [sealWants, Bool.and_eq_true, Bool.not_eq_true'] at h
  exact ⟨h.1.1, h.1.2, h.2⟩

theorem seal_contains_of_mem (hash clock : Str → Str) (today : Str) :
    ∀ (fs : Disk) (p : Str) (e : Str × Str), e ∈ fs →
      isAuditShardName e.fst = true → strContains e.fst today = false →
      strContains (seal_unsealed_logs hash clock today fs p) e.fst = true := by
  intro fs
  induction fs with
  | nil => intro p e he; cases he
  | cons a fs ih =>
    intro p e he hshard htoday
    rcases List.mem_cons.mp he with heq | hmem
    · by_cases hc : ledger_contains p e.fst = true
      · by_cases hw : sealWants today p a.fst = true
        · rw [seal_unsealed_logs, if_pos hw]
          exact seal_preserves_contains hash clock today fs _
            (ledger_contains_append_to_ledger _ _ _ hc)
        · rw [seal_unsealed_logs, if_neg hw]
          exact seal_preserves_contains hash clock today fs p hc
      · have hcf : ledger_contains p e.fst = false := by
          simpa using hc
        have hw : sealWants today p a.fst = true := by
          rw [← heq]
          simp [sealWants, hshard, htoday, hcf]
        rw [seal_unsealed_logs, if_pos hw, heq]
        exact seal_preserves_contains hash clock today fs _
          (contains_append_to_ledger _ _ _ p)
    · by_cases hw : sealWants today p a.fst = true
      · rw [seal_unsealed_logs, if_pos hw]
        exact ih _ e hmem hshard htoday
      · rw [seal_unsealed_logs, if_neg hw]
        exact ih p e hmem hshard htoday

theorem seal_noop (hash clock : Str → Str) (today : Str) :
    ∀ (fs : Disk) (p : Str), (∀ e ∈ fs, sealWants today p e.fst = false) →
      seal_unsealed_logs hash clock today fs p = p := by
  intro fs
  induction fs with
  | nil => intro p _; simp [seal_unsealed_logs]
  | cons a fs ih =>
    intro p hall
    have ha := hall a (List.mem_cons_self a fs)
    rw [seal_unsealed_logs, if_neg (by simp [ha])]
    exact ih p (fun e he => hall e (List.mem_cons_of_mem a he))

theorem sealAppendedNames_not_mem (hash clock : Str → Str) (today : Str) :
    ∀ (fs : Disk) (p : Str) (f : Str), ledger_contains p f = true →
      f ∉ sealAppendedNames hash clock today fs p := by
  intro fs
  induction fs with
  | nil => intro p f _ h; cases h
  | cons a fs ih =>
    intro p f hc
    by_cases hw : sealWants today p a.fst = true
    · rw [sealAppendedNames, if_pos hw]
      intro hmem
      rcases List.mem_cons.mp hmem with heq | hmem2
      · have := (sealWants_parts hw).2.2
        rw [← heq, hc] at this
        cases this
      · exact ih _ f (ledger_contains_append_to_ledger _ _ _ hc) hmem2
    · rw [sealAppendedNames, if_neg hw]
      exact ih p f hc

theorem sealAppendedNames_shape (hash clock : Str → Str) (today : Str) :
    ∀ (fs : Disk) (p : Str) (f : Str), f ∈ sealAppendedNames hash clock today fs p →
      isAuditShardName f = true ∧ strContains f today = false := by
  intro fs
  induction fs with
  | nil => intro p f h; cases h
  | cons a fs ih =>
    intro p f hmem
    by_cases hw : sealWants today p a.fst = true
    · rw [sealAppendedNames, if_pos hw] at hmem
      rcases List.mem_cons.mp hmem with heq | hmem2
      · have h := sealWants_parts hw
        rw [heq]
        exact ⟨h.1, h.2.1⟩
      · exact ih _ f hmem2
    · rw [sealAppendedNames, if_neg hw] at hmem
      exact ih p f hmem


/-- C2: sealing is one-time and idempotent by filename.  A record is appended
only for audit shards whose name does not contain today's date and does not
yet occur in the decrypted ledger plaintext; for any ledger state already
containing a shard's filename, sealing appends no record for that filename;
and sealing twice over the same logs directory (with arbitrary later
timestamps and the same hash function semantics) leaves the ledger plaintext
of the first seal unchanged. -/
theorem c2_seal_one_time_idempotent (hash hash2 clock clock2 : Str → Str)
    (today : Str) (fs : Disk) (p : Str) :
    (∀ f ∈ sealAppendedNames hash clock today fs p,
        isAuditShardName f = true ∧ strContains f today = false) ∧
    (∀ f, ledger_contains p f = true → f ∉ sealAppendedNames hash clock today fs p) ∧
    seal_unsealed_logs hash2 clock2 today fs (seal_unsealed_logs hash clock today fs p)
      = seal_unsealed_logs hash clock today fs p := by
  refine ⟨fun f hf => sealAppendedNames_shape hash clock today fs p f hf,
    fun f hc => sealAppendedNames_not_mem hash clock today fs p f hc, ?_⟩
  apply seal_noop
  intro e he
  by_cases hshard : isAuditShardName e.fst = true
  · by_cases htoday : strContains e.fst today = true
    · simp [sealWants, htoday]
    · have hin : strContains (seal_unsealed_logs hash clock today fs p) e.fst = true :=
        seal_contains_of_mem hash clock today fs p e he hshard
          (Bool.eq_false_iff.mpr htoday)
      simp [sealWants, ledger_contains, hin]
  · simp [sealWants, Bool.eq_false_iff.mpr hshard]

/-- C2 witness: a concrete two-shard directory in which one shard is already
sealed, one is today's; sealing appends nothing for the sealed name and a
second seal is a no-op. -/
theorem c2_witness :
    ledger_contains "t audit-2025-10-09.jsonl h\n".toList "audit-2025-10-09.jsonl".toList = true ∧
    "audit-2025-10-09.jsonl".toList ∉
      sealAppendedNames (fun _ => "H".toList) (fun _ => "T".toList) "2025-10-11".toList
        [("audit-2025-10-09.jsonl".toList, "x".toList),
         ("audit-2025-10-11.jsonl".toList, "y".toList)]
        "t audit-2025-10-09.jsonl h\n".toList := by
  have h := c2_seal_one_time_idempotent (fun _ => "H".toList) (fun _ => "H".toList)
    (fun _ => "T".toList) (fun _ => "T".toList) "2025-10-11".toList
    [("audit-2025-10-09.jsonl".toList, "x".toList),
     ("audit-2025-10-11.jsonl".toList, "y".toList)]
    "t audit-2025-10-09.jsonl h\n".toList
  have hc : ledger_contains "t audit-2025-10-09.jsonl h\n".toList
      "audit-2025-10-09.jsonl".toList = true := by decide
  exact ⟨hc, h.2.1 _ hc⟩

/-! Helper lemmas: whitespace splitting. -/

theorem isEmpty_false_of_ne_nil {l : Str} (h : l ≠ []) : l.isEmpty = false := by
  cases l with
  | nil => exact absurd rfl h
  | cons a t => rfl

theorem splitWsGo_word : ∀ (w : Str), (∀ c ∈ w, isWsChar c = false) →
    ∀ (rest acc : Str), splitWsGo (w ++ rest) acc = splitWsGo rest (w.reverse ++ acc) := by
  intro w
  induction w with
  | nil => intro _ rest acc; simp
  | cons c w ih =>
    intro hw rest acc
    have hc : isWsChar c = false := hw c (List.mem_cons_self c w)
    have h2 := ih (fun x hx => hw x (List.mem_cons_of_mem c hx)) rest (c :: acc)
    rw [List.cons_append, splitWsGo, hc, if_neg (by simp), h2]
    simp [List.append_assoc]

theorem splitWsGo_space (rest acc : Str) (hacc : acc ≠ []) :
    splitWsGo (' ' :: rest) acc = acc.reverse :: splitWsGo rest [] := by
  obtain ⟨x, xs, rfl⟩ := List.exists_cons_of_ne_nil hacc
  simp [splitWsGo, isWsChar]

theorem splitWsGo_empty (acc : Str) (hacc : acc ≠ []) : splitWsGo [] acc = [acc.reverse] := by
  obtain ⟨x, xs, rfl⟩ := List.exists_cons_of_ne_nil hacc
  simp [splitWsGo]

theorem splitWsGo_word_nil (w : Str) (hne : w ≠ []) (hw : ∀ c ∈ w, isWsChar c = false) :
    splitWsGo w [] = [w] := by
  have h := splitWsGo_word w hw [] []
  rw [List.append_nil] at h
  rw [h, List.append_nil, splitWsGo_empty _ (by simpa using hne), List.reverse_reverse]

theorem splitWhitespace_ledgerLine (ts f h : Str)
    (hts : ts ≠ []) (hf : f ≠ []) (hh : h ≠ [])
    (hwts : ∀ c ∈ ts, isWsChar c = false) (hwf : ∀ c ∈ f, isWsChar c = false)
    (hwh : ∀ c ∈ h, isWsChar c = false) :
    splitWhitespace (ledgerLine ts f h) = [ts, f, h] := by
  rw [splitWhitespace, ledgerLine, splitWsGo_word ts hwts, List.append_nil,
    splitWsGo_space _ _ (by simpa using hts), List.reverse_reverse]
  have h2 := splitWsGo_word f hwf (' ' :: h) []
  rw [List.append_nil] at h2
  rw [h2, splitWsGo_space _ _ (by simpa using hf), List.reverse_reverse,
    splitWsGo_word_nil h hh hwh]

/-! Helper lemmas: lines. -/

theorem splitChunks_ne_nil (sep : Char) (p : Str) : splitChunks sep p ≠ [] := by
  cases p with
  | nil => simp [splitChunks]
  | cons c cs =>
    cases h : splitChunks sep cs with
    | nil => simp [splitChunks, h]
    | cons a t =>
      simp only [splitChunks, h]
      split <;> simp

theorem splitChunks_sep_cons (sep : Char) (q : Str) :
    splitChunks sep (sep :: q) = [] :: splitChunks sep q := by
  cases h : splitChunks sep q with
  | nil => exact absurd h (splitChunks_ne_nil sep q)
  | cons a t => simp [splitChunks, h]

theorem splitChunks_word_append (sep : Char) :
    ∀ (w : Str), sep ∉ w → ∀ (q a : Str) (t : List Str),
      splitChunks sep q = a :: t → splitChunks sep (w ++ q) = (w ++ a) :: t := by
  intro w
  induction w with
  | nil => intro _ q a t hq; simpa using hq
  | cons c w ih =>
    intro hmem q a t hq
    have hc : ¬(c = sep) := fun e => hmem (List.mem_cons.mpr (Or.inl e.symm))
    have h2 := ih (fun hx => hmem (List.mem_cons_of_mem c hx)) q a t hq
    simp [splitChunks, h2, hc]

theorem splitChunks_joinNl : ∀ (ls : List Str), (∀ l ∈ ls, ('\n' : Char) ∉ l) →
    splitChunks '\n' (joinNl ls) = ls ++ [[]] := by
  intro ls
  induction ls with
  | nil => intro _; simp [joinNl, splitChunks]
  | cons l ls ih =>
    intro hl
    have h1 : joinNl (l :: ls) = l ++ ('\n' :: joinNl ls) := by
      simp [joinNl]
    have h3 := ih (fun x hx => hl x (List.mem_cons_of_mem l hx))
    rw [h1, splitChunks_word_append '\n' l (hl l (List.mem_cons_self l ls))
      ('\n' :: joinNl ls) [] (ls ++ [[]]) (by rw [splitChunks_sep_cons, h3])]
    simp

theorem rustLines_joinNl (ls : List Str) (hl : ∀ l ∈ ls, ('\n' : Char) ∉ l) :
    rustLines (joinNl ls) = ls := by
  simp only [rustLines, splitChunks_joinNl ls hl]
  rw [if_pos (by simp)]
  simp

theorem infix_joinNl_of_mem {ls : List Str} {l : Str} (hm : l ∈ ls) : l <:+: joinNl ls := by
  have h1 : (l ++ ['\n']) ∈ ls.map (fun x => x ++ ['\n']) := List.mem_map_of_mem _ hm
  obtain ⟨s, t, he⟩ := List.infix_of_mem_flatten h1
  refine ⟨s, '\n' :: t, ?_⟩
  have h2 : s ++ l ++ '\n' :: t = s ++ (l ++ ['\n']) ++ t := by simp
  rw [h2, joinNl, he]

theorem not_nl_of_wsFree {l : Str} (hw : ∀ c ∈ l, isWsChar c = false) : ('\n' : Char) ∉ l := by
  intro hm
  have := hw _ hm
  simp [isWsChar] at this

theorem find?_append_of_all_false {α : Type} {p : α → Bool} {xs ys : List α}
    (h : ∀ x ∈ xs, p x = false) : List.find? p (xs ++ ys) = List.find? p ys := by
  have hn : List.find? p xs = none := List.find?_eq_none.mpr (fun x hx => by simp [h x hx])
  simp [List.find?_append, hn]

theorem shardFileName_wsFree {t : Str} (ht : ∀ c ∈ t, isWsChar c = false) :
    ∀ c ∈ shardFileName t, isWsChar c = false := by
  have hA : ∀ c ∈ auditPre, isWsChar c = false := by decide
  have hJ : ∀ c ∈ jsonlSuf, isWsChar c = false := by decide
  intro c hc
  rw [shardFileName] at hc
  rcases List.mem_append.mp hc with h1 | h2
  · rcases List.mem_append.mp h1 with ha | htm
    · exact hA c ha
    · exact ht c htm
  · exact hJ c h2

theorem shardFileName_ne_nil (t : Str) : shardFileName t ≠ [] := by
  simp [shardFileName, auditPre]

/-! Helper lemma: sealed-then-verified evaluation of `verify_date`. -/

theorem verify_date_eval (hash : Str → Str) (disk : Disk) (entries : List Str)
    (ts target h2 d yesterday content : Str)
    (hTarget : (parseDateYmd d).map formatYmd = some target)
    (hEntriesNl : ∀ l ∈ entries, ('\n' : Char) ∉ l)
    (hNotIn : strContains (joinNl entries) (shardFileName target) = false)
    (hts : ts ≠ []) (hwts : ∀ c ∈ ts, isWsChar c = false)
    (hh : h2 ≠ []) (hwh : ∀ c ∈ h2, isWsChar c = false)
    (hwt : ∀ c ∈ target, isWsChar c = false)
    (hdisk : diskLookup disk (shardFileName target) = some content) :
    verify_date hash true disk
      (append_to_ledger ts (shardFileName target) h2 (joinNl entries)) yesterday (some d)
    = (if h2 == hash content
       then pushEntry emptySummary
         ⟨shardFileName target, .verified, some h2, some (hash content)⟩
       else pushEntry emptySummary
         ⟨shardFileName target, .mismatched, some h2, some (hash content)⟩) := by
  have hfw : ∀ c ∈ shardFileName target, isWsChar c = false := shardFileName_wsFree hwt
  have hfn : shardFileName target ≠ [] := shardFileName_ne_nil target
  have hlineNl : ('\n' : Char) ∉ ledgerLine ts (shardFileName target) h2 := by
    intro hm
    rw [ledgerLine] at hm
    rcases List.mem_append.mp hm with h1 | h1
    · exact absurd (hwts _ h1) (by simp [isWsChar])
    · rcases List.mem_cons.mp h1 with h3 | h3
      · simp at h3
      · rcases List.mem_append.mp h3 with h4 | h4
        · exact absurd (hfw _ h4) (by simp [isWsChar])
        · rcases List.mem_cons.mp h4 with h5 | h5
          · simp at h5
          · exact absurd (hwh _ h5) (by simp [isWsChar])
  have hplain : append_to_ledger ts (shardFileName target) h2 (joinNl entries)
      = joinNl (entries ++ [ledgerLine ts (shardFileName target) h2]) := by
    simp [append_to_ledger, joinNl]
  have hlines : rustLines (append_to_ledger ts (shardFileName target) h2 (joinNl entries))
      = entries ++ [ledgerLine ts (shardFileName target) h2] := by
    rw [hplain]
    refine rustLines_joinNl _ ?_
    intro l hl
    rcases List.mem_append.mp hl with h1 | h1
    · exact hEntriesNl l h1
    · rcases List.mem_cons.mp h1 with h3 | h3
      · rw [h3]; exact hlineNl
      · cases h3
  have hfind : (rustLines (append_to_ledger ts (shardFileName target) h2 (joinNl entries))).find?
      (fun l => strContains l (shardFileName target))
      = some (ledgerLine ts (shardFileName target) h2) := by
    have hxs : ∀ x ∈ entries, strContains x (shardFileName target) = false := by
      intro x hx
      by_contra hcc
      have hx2 : strContains x (shardFileName target) = true := by
        revert hcc
        cases strContains x (shardFileName target) <;> simp
      have hinf := (strContains_iff.mp hx2).trans (infix_joinNl_of_mem hx)
      rw [Bool.eq_false_iff] at hNotIn
      exact hNotIn (strContains_iff.mpr hinf)
    have hpred : strContains (ledgerLine ts (shardFileName target) h2) (shardFileName target)
        = true := by
      refine strContains_iff.mpr ?_
      refine ⟨ts ++ [' '], ' ' :: h2, ?_⟩
      simp [ledgerLine]
    rw [hlines, find?_append_of_all_false hxs]
    simp [List.find?, hpred]
  have hne : (append_to_ledger ts (shardFileName target) h2 (joinNl entries)).isEmpty = false :=
    isEmpty_false_of_ne_nil (by simp [append_to_ledger])
  rw [verify_date]
  simp only [Bool.not_true, Bool.false_eq_true, if_false, hTarget, hne, hdisk, hfind,
    splitWhitespace_ledgerLine ts (shardFileName target) h2 hts hfn hh hwts hfw hwh]

/-- C3: sealing a shard (appending `"<ts> <fname> <sha>\n"` for its bytes to a
ledger that does not yet contain the filename) and then verifying its date
yields `Verified` with `stored_hash = computed_hash = hash bytes`; and if the
sealed file's bytes are replaced by a one-byte mutation whose hash differs
(SHA-256 collision resistance, stated as a hypothesis on the abstract hash
collaborator), the next verify reports `Mismatched`. -/
theorem c3_seal_verify_roundtrip (hash : Str → Str) (entries : List Str)
    (ts target d yesterday bytes : Str) (disk disk2 : Disk) (i : Nat) (b : Char)
    (hTarget : (parseDateYmd d).map formatYmd = some target)
    (hEntriesNl : ∀ l ∈ entries, ('\n' : Char) ∉ l)
    (hNotIn : strContains (joinNl entries) (shardFileName target) = false)
    (hts : ts ≠ []) (hwts : ∀ c ∈ ts, isWsChar c = false)
    (hh : hash bytes ≠ []) (hwh : ∀ c ∈ hash bytes, isWsChar c = false)
    (hwt : ∀ c ∈ target, isWsChar c = false)
    (hdisk : diskLookup disk (shardFileName target) = some bytes)
    (hdisk2 : diskLookup disk2 (shardFileName target) = some (bytes.set i b))
    (_hi : i < bytes.length) (_hb : bytes.get? i ≠ some b)
    (hcoll : hash (bytes.set i b) ≠ hash bytes) :
    verify_date hash true disk
      (append_to_ledger ts (shardFileName target) (hash bytes) (joinNl entries))
      yesterday (some d)
    = pushEntry emptySummary
        ⟨shardFileName target, .verified, some (hash bytes), some (hash bytes)⟩ ∧
    verify_date hash true disk2
      (append_to_ledger ts (shardFileName target) (hash bytes) (joinNl entries))
      yesterday (some d)
    = pushEntry emptySummary
        ⟨shardFileName target, .mismatched, some (hash bytes), some (hash (bytes.set i b))⟩ := by
  constructor
  · rw [verify_date_eval hash disk entries ts target (hash bytes) d yesterday bytes
      hTarget hEntriesNl hNotIn hts hwts hh hwh hwt hdisk]
    rw [if_pos (by simp)]
  · rw [verify_date_eval hash disk2 entries ts target (hash bytes) d yesterday (bytes.set i b)
      hTarget hEntriesNl hNotIn hts hwts hh hwh hwt hdisk2]
    rw [if_neg (by simpa using fun hx => hcoll (by simpa using hx.symm))]

/-- C3 witness: concrete one-entry ledger and two concrete disks, verified
after sealing and mismatched after flipping a byte. -/
theorem c3_witness :
    verify_date (fun s => if s = "xy".toList then "haaa".toList else "hbbb".toList) true
      [("audit-2025-10-10.jsonl".toList, "xy".toList)]
      (append_to_ledger "T".toList (shardFileName "2025-10-10".toList) "haaa".toList (joinNl []))
      "y".toList (some "2025-10-10".toList)
    = pushEntry emptySummary
        ⟨shardFileName "2025-10-10".toList, .verified, some "haaa".toList, some "haaa".toList⟩ ∧
    verify_date (fun s => if s = "xy".toList then "haaa".toList else "hbbb".toList) true
      [("audit-2025-10-10.jsonl".toList, "zy".toList)]
      (append_to_ledger "T".toList (shardFileName "2025-10-10".toList) "haaa".toList (joinNl []))
      "y".toList (some "2025-10-10".toList)
    = pushEntry emptySummary
        ⟨shardFileName "2025-10-10".toList, .mismatched, some "haaa".toList, some "hbbb".toList⟩ := by
  have h := c3_seal_verify_roundtrip
    (fun s => if s = "xy".toList then "haaa".toList else "hbbb".toList)
    [] "T".toList "2025-10-10".toList "2025-10-10".toList "y".toList "xy".toList
    [("audit-2025-10-10.jsonl".toList, "xy".toList)]
    [("audit-2025-10-10.jsonl".toList, "zy".toList)]
    0 'z'
    (by decide) (by intro l hl; cases hl) (by decide)
    (by decide) (by decide) (by decide) (by decide) (by decide)
    (by decide) (by decide) (by decide) (by decide) (by decide)
  exact ⟨h.1, h.2⟩

/-- C10: a date string that does not parse as `YYYY-MM-DD` makes `verify_date`
return the all-zero summary with an empty per-file list (no error value and no
`Malformed` entry). -/
theorem c10_unparsable_date (hash : Str → Str) (logsDirExists : Bool) (disk : Disk)
    (ledgerPlain : Str) (yesterday d : Str) (h : parseDateYmd d = none) :
    verify_date hash logsDirExists disk ledgerPlain yesterday (some d) = emptySummary := by
  cases logsDirExists with
  | false => rw [verify_date]; simp
  | true => rw [verify_date]; simp [h]

/-- C10 witness: a date with invalid month/day fields, and an unsigned
five-digit year, which chrono's 4-digit cap on the unsigned `%Y` field makes
unparsable. -/
theorem c10_witness :
    verify_date (fun s => s) true [] "x y z\n".toList "y".toList (some "2025-13-40".toList)
      = emptySummary ∧
    verify_date (fun s => s) true [] "x y z\n".toList "y".toList (some "12345-01-01".toList)
      = emptySummary :=
  ⟨c10_unparsable_date (fun s => s) true [] "x y z\n".toList "y".toList "2025-13-40".toList
    (by decide),
   c10_unparsable_date (fun s => s) true [] "x y z\n".toList "y".toList "12345-01-01".toList
    (by decide)⟩

/-- C5 counterexample: the `pipa` crate's `log_event` does not seal.  With a
yesterday shard on disk and an empty ledger, a `log_event` call returns with
the old shard still unrecorded, refuting the claim at this input. -/
theorem c5_counterexample :
    ledger_contains
      (log_event_pipa "p".toList "2025-10-11".toList
        ⟨[("audit-2025-10-10.jsonl".toList, "x".toList)], []⟩).ledger
      "audit-2025-10-10.jsonl".toList = false ∧
    ("audit-2025-10-10.jsonl".toList, "x".toList) ∈
      (log_event_pipa "p".toList "2025-10-11".toList
        ⟨[("audit-2025-10-10.jsonl".toList, "x".toList)], []⟩).disk ∧
    isAuditShardName "audit-2025-10-10.jsonl".toList = true ∧
    strContains "audit-2025-10-10.jsonl".toList "2025-10-11".toList = false := by
  decide

/-- C5 amended: `pipa-core`'s `log_event` appends the serialized entry plus a
newline to today's shard and then seals, after which every audit shard on
disk whose name does not contain today's date occurs in the ledger plaintext;
the `pipa` crate's `log_event` performs the same append but leaves the ledger
untouched (it never invokes seal). -/
theorem c5_amended (hash clock : Str → Str) (json today : Str) (st : LogState) :
    (log_event_pipa json today st).disk
      = appendFile st.disk (shardFileName today) (json ++ ['\n']) ∧
    (log_event_pipa json today st).ledger = st.ledger ∧
    (log_event_core hash clock json today st).disk
      = appendFile st.disk (shardFileName today) (json ++ ['\n']) ∧
    (∀ e ∈ (log_event_core hash clock json today st).disk,
        isAuditShardName e.fst = true → strContains e.fst today = false →
        ledger_contains (log_event_core hash clock json today st).ledger e.fst = true) := by
  refine ⟨rfl, rfl, rfl, ?_⟩
  intro e he hshard htoday
  exact seal_contains_of_mem hash clock today _ st.ledger e he hshard htoday

/-- C5 amended witness: after a concrete `pipa-core` `log_event` call,
yesterday's shard occurs in the ledger. -/
theorem c5_amended_witness :
    ledger_contains
      (log_event_core (fun _ => "H".toList) (fun _ => "T".toList) "p".toList
        "2025-10-11".toList
        ⟨[("audit-2025-10-10.jsonl".toList, "x".toList)], []⟩).ledger
      "audit-2025-10-10.jsonl".toList = true := by
  refine (c5_amended (fun _ => "H".toList) (fun _ => "T".toList) "p".toList
    "2025-10-11".toList ⟨[("audit-2025-10-10.jsonl".toList, "x".toList)], []⟩).2.2.2
    ("audit-2025-10-10.jsonl".toList, "x".toList) ?_ (by decide) (by decide)
  decide

/-! Helper lemmas: inversion of the contract-validation runner. -/

theorem run_ok_inv (env : RunEnv) (o : ValidationOutcome) (msg : String)
    (h : (run_contract_validation env).result = .ok (o, msg)) :
    ∃ rs, env.execResult = .ok rs ∧ o = mkOutcome rs ∧
      (run_contract_validation env).events
        = ["contract_validation_started", "file_read"] ++ env.execEvents
          ++ (movementStep env (mkOutcome rs).passed
               (validate_profiles env.profileTest env.contracts.source
                 env.contracts.destination env.contracts.quarantine).snd.fst
               (validate_profiles env.profileTest env.contracts.source
                 env.contracts.destination env.contracts.quarantine).snd.snd).fst
          ++ ["contract_validation_completed"] ∧
      (run_contract_validation env).connectorWrites
        = (movementStep env (mkOutcome rs).passed
            (validate_profiles env.profileTest env.contracts.source
              env.contracts.destination env.contracts.quarantine).snd.fst
            (validate_profiles env.profileTest env.contracts.source
              env.contracts.destination env.contracts.quarantine).snd.snd).snd := by
  cases hce : env.contractExists with
  | false =>
    have hrun : run_contract_validation env = ⟨[], 0, .error "Contract not found"⟩ := by
      unfold run_contract_validation
      simp [hce]
    rw [hrun] at h
    simp at h
  | true =>
    cases hpl : env.profilesLoad with
    | error e =>
      have hrun : run_contract_validation env = ⟨[], 0, .error e⟩ := by
        unfold run_contract_validation
        simp [hce, hpl]
      rw [hrun] at h
      simp at h
    | ok u =>
      cases u
      cases hsrc : env.contracts.source with
      | none =>
        have hrun : run_contract_validation env = ⟨[], 0, .error "Contract missing source"⟩ := by
          unfold run_contract_validation
          simp [hce, hpl, hsrc]
        rw [hrun] at h
        simp at h
      | some src =>
        cases hloc : src.location with
        | none =>
          have hrun : run_contract_validation env
              = ⟨[], 0, .error "Source missing location"⟩ := by
            unfold run_contract_validation
            simp [hce, hpl, hsrc, hloc]
          rw [hrun] at h
          simp at h
        | some loc =>
          cases hf : env.fetchData with
          | error e =>
            have hrun : run_contract_validation env
                = ⟨["contract_validation_started"], 0, .error e⟩ := by
              unfold run_contract_validation
              simp [hce, hpl, hsrc, hloc, hf]
            rw [hrun] at h
            simp at h
          | ok n =>
            cases hex : env.execResult with
            | error e =>
              have hrun : run_contract_validation env
                  = ⟨["contract_validation_started", "file_read"] ++ env.execEvents,
                     0, .error e⟩ := by
                unfold run_contract_validation
                simp [hce, hpl, hsrc, hloc, hf, hex]
              rw [hrun] at h
              simp at h
            | ok rs =>
              cases hdl : env.driverLoad with
              | error e =>
                have hrun : run_contract_validation env
                    = ⟨["contract_validation_started", "file_read"] ++ env.execEvents,
                       0, .error e⟩ := by
                  unfold run_contract_validation
                  simp [hce, hpl, hsrc, hloc, hf, hex, hdl]
                rw [hrun] at h
                simp at h
              | ok u2 =>
                cases u2
                cases hvf : (validate_profiles env.profileTest env.contracts.source
                    env.contracts.destination env.contracts.quarantine).fst with
                | false =>
                  rw [hsrc] at hvf
                  have hrun : run_contract_validation env
                      = ⟨["contract_validation_started", "file_read"] ++ env.execEvents,
                         0, .error "Source profile connectivity failed"⟩ := by
                    unfold run_contract_validation
                    simp [hce, hpl, hsrc, hloc, hf, hex, hdl, hvf]
                  rw [hrun] at h
                  simp at h
                | true =>
                  rw [hsrc] at hvf
                  have hrun : run_contract_validation env
                      = ⟨["contract_validation_started", "file_read"] ++ env.execEvents
                          ++ (movementStep env (mkOutcome rs).passed
                               (validate_profiles env.profileTest env.contracts.source
                                 env.contracts.destination env.contracts.quarantine).snd.fst
                               (validate_profiles env.profileTest env.contracts.source
                                 env.contracts.destination env.contracts.quarantine).snd.snd).fst
                          ++ ["contract_validation_completed"],
                         (movementStep env (mkOutcome rs).passed
                           (validate_profiles env.profileTest env.contracts.source
                             env.contracts.destination env.contracts.quarantine).snd.fst
                           (validate_profiles env.profileTest env.contracts.source
                             env.contracts.destination env.contracts.quarantine).snd.snd).snd,
                         .ok (mkOutcome rs, "contract_validation_completed")⟩ := by
                    unfold run_contract_validation
                    simp [hce, hpl, hsrc, hloc, hf, hex, hdl, hvf]
                  rw [hrun] at h
                  simp at h
                  exact ⟨rs, rfl, h.1.symm, by simp [hrun, hsrc], by simp [hrun, hsrc]⟩

theorem orch_ok_inv (env : RunEnv) (o : ValidationOutcome) (msg : String)
    (h : (run_contract_validation_orch env).result = .ok (o, msg)) :
    ∃ rs, env.execResult = .ok rs ∧ o = mkOutcome rs := by
  cases hce : env.contractExists with
  | false =>
    have hrun : run_contract_validation_orch env = ⟨[], 0, .error "Contract not found"⟩ := by
      unfold run_contract_validation_orch
      simp [hce]
    rw [hrun] at h
    simp at h
  | true =>
    cases hpl : env.profilesLoad with
    | error e =>
      have hrun : run_contract_validation_orch env = ⟨[], 0, .error e⟩ := by
        unfold run_contract_validation_orch
        simp [hce, hpl]
      rw [hrun] at h
      simp at h
    | ok u =>
      cases u
      cases hsrc : env.contracts.source with
      | none =>
        have hrun : run_contract_validation_orch env
            = ⟨[], 0, .error "Contract missing source"⟩ := by
          unfold run_contract_validation_orch
          simp [hce, hpl, hsrc]
        rw [hrun] at h
        simp at h
      | some src =>
        cases hloc : src.location with
        | none =>
          have hrun : run_contract_validation_orch env
              = ⟨[], 0, .error "Source missing location"⟩ := by
            unfold run_contract_validation_orch
            simp [hce, hpl, hsrc, hloc]
          rw [hrun] at h
          simp at h
        | some loc =>
          cases hf : env.fetchData with
          | error e =>
            have hrun : run_contract_validation_orch env
                = ⟨["contract_validation_started"], 0, .error e⟩ := by
              unfold run_contract_validation_orch
              simp [hce, hpl, hsrc, hloc, hf]
            rw [hrun] at h
            simp at h
          | ok n =>
            cases hex : env.execResult with
            | error e =>
              have hrun : run_contract_validation_orch env
                  = ⟨["contract_validation_started", "file_read"] ++ env.execEvents,
                     0, .error e⟩ := by
                unfold run_contract_validation_orch
                simp [hce, hpl, hsrc, hloc, hf, hex]
              rw [hrun] at h
              simp at h
            | ok rs =>
              have hrun : run_contract_validation_orch env
                  = ⟨["contract_validation_started", "file_read"] ++ env.execEvents
                      ++ ["contract_validation_completed"], 0,
                     .ok (mkOutcome rs, "contract_validation_completed")⟩ := by
                unfold run_contract_validation_orch
                simp [hce, hpl, hsrc, hloc, hf, hex]
              rw [hrun] at h
              simp at h
              exact ⟨rs, rfl, h.1.symm⟩

/-- C1: whenever either runner returns `Ok`, the outcome satisfies
`passed = (fail_count == 0)`, with `fail_count` / `pass_count` the number of
result entries whose `result` field is `"fail"` / `"pass"`; with zero rule
results the run is vacuously passed with both counts zero. -/
theorem c1_passed_iff_no_failures (env : RunEnv) (o : ValidationOutcome) (msg : String) :
    ((run_contract_validation env).result = .ok (o, msg) →
      o.passed = (o.fail_count == 0) ∧
      o.fail_count = countFail o.results ∧
      o.pass_count = countPass o.results ∧
      (o.results = [] → o.passed = true ∧ o.pass_count = 0 ∧ o.fail_count = 0)) ∧
    ((run_contract_validation_orch env).result = .ok (o, msg) →
      o.passed = (o.fail_count == 0) ∧
      o.fail_count = countFail o.results ∧
      o.pass_count = countPass o.results ∧
      (o.results = [] → o.passed = true ∧ o.pass_count = 0 ∧ o.fail_count = 0)) := by
  constructor
  · intro h
    obtain ⟨rs, _, rfl, _, _⟩ := run_ok_inv env o msg h
    refine ⟨rfl, rfl, rfl, ?_⟩
    intro hnil
    have hrs : rs = [] := hnil
    subst hrs
    refine ⟨?_, rfl, rfl⟩
    simp [mkOutcome, countFail]
  · intro h
    obtain ⟨rs, _, rfl⟩ := orch_ok_inv env o msg h
    refine ⟨rfl, rfl, rfl, ?_⟩
    intro hnil
    have hrs : rs = [] := hnil
    subst hrs
    refine ⟨?_, rfl, rfl⟩
    simp [mkOutcome, countFail]

/-- C1 witness: a concrete successful run with zero rule results. -/
theorem c1_witness :
    (mkOutcome []).passed = ((mkOutcome []).fail_count == 0) ∧
    (mkOutcome []).fail_count = countFail (mkOutcome []).results ∧
    (mkOutcome []).pass_count = countPass (mkOutcome []).results ∧
    ((mkOutcome []).results = [] →
      (mkOutcome []).passed = true ∧ (mkOutcome []).pass_count = 0 ∧
        (mkOutcome []).fail_count = 0) :=
  (c1_passed_iff_no_failures
    { contractExists := true
      contracts := ⟨"c", "1", some ⟨"local", some "data.csv", none⟩, none, none⟩
      profilesLoad := .ok ()
      fetchData := .ok 3
      execEvents := []
      execResult := .ok []
      driverLoad := .ok ()
      profileTest := fun _ => false
      destWrite := .ok ()
      quarWrite := .ok () }
    (mkOutcome []) "contract_validation_completed").1 (by rfl)

/-- C6: if the contract file does not exist, or the contract has no source
section, or the source has no location, both runners return an error having
written no audit event (in particular no `validation_start`), performed no
connector write, and produced no `ValidationOutcome` (hence no partial
`RuleResult` list). -/
theorem c6_pre_validation_errors_atomic (env : RunEnv)
    (h : env.contractExists = false ∨ env.contracts.source = none ∨
      ∃ src, env.contracts.source = some src ∧ src.location = none) :
    ((run_contract_validation env).events = [] ∧
     (run_contract_validation env).connectorWrites = 0 ∧
     ∃ e, (run_contract_validation env).result = .error e) ∧
    ((run_contract_validation_orch env).events = [] ∧
     (run_contract_validation_orch env).connectorWrites = 0 ∧
     ∃ e, (run_contract_validation_orch env).result = .error e) := by
  have hmain : ∃ e, run_contract_validation env = ⟨[], 0, .error e⟩ := by
    rcases h with hce | hsrc | ⟨src, hsrc, hloc⟩
    · exact ⟨"Contract not found", by unfold run_contract_validation; simp [hce]⟩
    · cases hce : env.contractExists with
      | false => exact ⟨"Contract not found", by unfold run_contract_validation; simp [hce]⟩
      | true =>
        cases hpl : env.profilesLoad with
        | error e => exact ⟨e, by unfold run_contract_validation; simp [hce, hpl]⟩
        | ok u =>
          cases u
          exact ⟨"Contract missing source",
            by unfold run_contract_validation; simp [hce, hpl, hsrc]⟩
    · cases hce : env.contractExists with
      | false => exact ⟨"Contract not found", by unfold run_contract_validation; simp [hce]⟩
      | true =>
        cases hpl : env.profilesLoad with
        | error e => exact ⟨e, by unfold run_contract_validation; simp [hce, hpl]⟩
        | ok u =>
          cases u
          exact ⟨"Source missing location",
            by unfold run_contract_validation; simp [hce, hpl, hsrc, hloc]⟩
  have horch : ∃ e, run_contract_validation_orch env = ⟨[], 0, .error e⟩ := by
    rcases h with hce | hsrc | ⟨src, hsrc, hloc⟩
    · exact ⟨"Contract not found", by unfold run_contract_validation_orch; simp [hce]⟩
    · cases hce : env.contractExists with
      | false => exact ⟨"Contract not found", by unfold run_contract_validation_orch; simp [hce]⟩
      | true =>
        cases hpl : env.profilesLoad with
        | error e => exact ⟨e, by unfold run_contract_validation_orch; simp [hce, hpl]⟩
        | ok u =>
          cases u
          exact ⟨"Contract missing source",
            by unfold run_contract_validation_orch; simp [hce, hpl, hsrc]⟩
    · cases hce : env.contractExists with
      | false => exact ⟨"Contract not found", by unfold run_contract_validation_orch; simp [hce]⟩
      | true =>
        cases hpl : env.profilesLoad with
        | error e => exact ⟨e, by unfold run_contract_validation_orch; simp [hce, hpl]⟩
        | ok u =>
          cases u
          exact ⟨"Source missing location",
            by unfold run_contract_validation_orch; simp [hce, hpl, hsrc, hloc]⟩
  obtain ⟨e1, he1⟩ := hmain
  obtain ⟨e2, he2⟩ := horch
  exact ⟨⟨by simp [he1], by simp [he1], ⟨e1, by simp [he1]⟩⟩,
    ⟨by simp [he2], by simp [he2], ⟨e2, by simp [he2]⟩⟩⟩

/-- C6 witness: a concrete contract whose source section is missing. -/
theorem c6_witness :
    (run_contract_validation
      { contractExists := true
        contracts := ⟨"c", "1", none, none, none⟩
        profilesLoad := .ok ()
        fetchData := .ok 3
        execEvents := ["validation_start"]
        execResult := .ok []
        driverLoad := .ok ()
        profileTest := fun _ => true
        destWrite := .ok ()
        quarWrite := .ok () }).events = [] ∧
    ∃ e, (run_contract_validation
      { contractExists := true
        contracts := ⟨"c", "1", none, none, none⟩
        profilesLoad := .ok ()
        fetchData := .ok 3
        execEvents := ["validation_start"]
        execResult := .ok []
        driverLoad := .ok ()
        profileTest := fun _ => true
        destWrite := .ok ()
        quarWrite := .ok () }).result = .error e := by
  have h := c6_pre_validation_errors_atomic
    { contractExists := true
      contracts := ⟨"c", "1", none, none, none⟩
      profilesLoad := .ok ()
      fetchData := .ok 3
      execEvents := ["validation_start"]
      execResult := .ok []
      driverLoad := .ok ()
      profileTest := fun _ => true
      destWrite := .ok ()
      quarWrite := .ok () }
    (Or.inr (Or.inl rfl))
  exact ⟨h.1.1, h.1.2.2⟩

/-! Helper lemma: pass/fail counts over a closed status set. -/

theorem countP_pass_add_fail (rs : List RuleResult)
    (hcl : ∀ r ∈ rs, r.result = "pass" ∨ r.result = "fail" ∨ r.result = "skipped") :
    countPass rs + countFail rs
      = (rs.filter (fun r => r.result != "skipped")).length := by
  induction rs with
  | nil => simp [countPass, countFail]
  | cons r rs ih =>
    have hr := hcl r (List.mem_cons_self r rs)
    have ih2 := ih (fun x hx => hcl x (List.mem_cons_of_mem r hx))
    rcases hr with h1 | h1 | h1 <;>
      simp only [countPass, countFail, List.countP_cons, List.filter_cons, h1] at ih2 ⊢ <;>
      simp at ih2 ⊢ <;> omega

/-- C9: rule results with status `skipped` count toward neither counter:
`pass_count + fail_count` is the number of non-skipped entries, and an
all-skipped run returns `passed = true` with both counts zero.  (The status
hypothesis reflects that every validator report status is one of `pass`,
`fail`, `skipped`.) -/
theorem c9_skipped_counts_toward_neither (env : RunEnv) (o : ValidationOutcome)
    (msg : String) (h : (run_contract_validation env).result = .ok (o, msg))
    (hcl : ∀ r ∈ o.results, r.result = "pass" ∨ r.result = "fail" ∨ r.result = "skipped") :
    o.pass_count + o.fail_count
      = (o.results.filter (fun r => r.result != "skipped")).length ∧
    ((∀ r ∈ o.results, r.result = "skipped") →
      o.passed = true ∧ o.pass_count = 0 ∧ o.fail_count = 0) := by
  obtain ⟨rs, _, rfl, _, _⟩ := run_ok_inv env o msg h
  constructor
  · exact countP_pass_add_fail rs hcl
  · intro hall
    have hp : countPass rs = 0 :=
      List.countP_eq_zero.mpr (fun r hr => by simp [countPass, hall r hr])
    have hf : countFail rs = 0 :=
      List.countP_eq_zero.mpr (fun r hr => by simp [countFail, hall r hr])
    refine ⟨?_, hp, hf⟩
    simp [mkOutcome, hf]

/-- C9 witness: a concrete run whose single rule result is skipped. -/
theorem c9_witness :
    (mkOutcome [⟨"col", "NotNull", "skipped", none⟩]).pass_count
      + (mkOutcome [⟨"col", "NotNull", "skipped", none⟩]).fail_count
      = ((mkOutcome [⟨"col", "NotNull", "skipped", none⟩]).results.filter
          (fun r => r.result != "skipped")).length ∧
    ((∀ r ∈ (mkOutcome [⟨"col", "NotNull", "skipped", none⟩]).results,
        r.result = "skipped") →
      (mkOutcome [⟨"col", "NotNull", "skipped", none⟩]).passed = true ∧
      (mkOutcome [⟨"col", "NotNull", "skipped", none⟩]).pass_count = 0 ∧
      (mkOutcome [⟨"col", "NotNull", "skipped", none⟩]).fail_count = 0) :=
  c9_skipped_counts_toward_neither
    { contractExists := true
      contracts := ⟨"c", "1", some ⟨"local", some "data.csv", none⟩, none, none⟩
      profilesLoad := .ok ()
      fetchData := .ok 3
      execEvents := []
      execResult := .ok [⟨"col", "NotNull", "skipped", none⟩]
      driverLoad := .ok ()
      profileTest := fun _ => false
      destWrite := .ok ()
      quarWrite := .ok () }
    (mkOutcome [⟨"col", "NotNull", "skipped", none⟩]) "contract_validation_completed"
    (by rfl) (by decide)

/-- C7: movement never alters the decided outcome.  The connectivity
pre-flight is trivially valid for endpoint types `local` and `not_moved` and
otherwise tests the named profile (invalid when none is named); when the
relevant destination/quarantine check fails the write is skipped and a
`movement_skipped` event logged; and in every movement branch the returned
outcome equals the one decided from the rule results before movement. -/
theorem c7_movement_frame (env : RunEnv) (o : ValidationOutcome) (msg : String)
    (pt : String → Bool) (p : Option String) (nm t : String) :
    test_profile_connectivity pt p (some "local") = true ∧
    test_profile_connectivity pt p (some "not_moved") = true ∧
    (t ≠ "local" → t ≠ "not_moved" →
      test_profile_connectivity pt (some nm) (some t) = pt nm ∧
      test_profile_connectivity pt none (some t) = false) ∧
    ((run_contract_validation env).result = .ok (o, msg) →
      ∀ rs, env.execResult = .ok rs →
        o.passed = (countFail rs == 0) ∧ o.pass_count = countPass rs ∧
        o.fail_count = countFail rs ∧ o.results = rs) ∧
    ((run_contract_validation env).result = .ok (o, msg) →
      ∀ rs dest, env.execResult = .ok rs → countFail rs = 0 →
        env.contracts.destination = some dest → dest.type ≠ "not_moved" →
        (validate_profiles env.profileTest env.contracts.source
          env.contracts.destination env.contracts.quarantine).snd.fst = false →
        "movement_skipped" ∈ (run_contract_validation env).events ∧
        (run_contract_validation env).connectorWrites = 0) ∧
    ((run_contract_validation env).result = .ok (o, msg) →
      ∀ rs q, env.execResult = .ok rs → countFail rs ≠ 0 →
        env.contracts.quarantine = some q → q.type ≠ "not_moved" →
        (validate_profiles env.profileTest env.contracts.source
          env.contracts.destination env.contracts.quarantine).snd.snd = false →
        "movement_skipped" ∈ (run_contract_validation env).events ∧
        (run_contract_validation env).connectorWrites = 0) := by
  refine ⟨rfl, rfl, ?_, ?_, ?_, ?_⟩
  · intro ht1 ht2
    constructor
    · unfold test_profile_connectivity
      split
      · next heq => injection heq with heq2; exact absurd heq2 ht1
      · next heq => injection heq with heq2; exact absurd heq2 ht2
      · rfl
    · unfold test_profile_connectivity
      split
      · next heq => injection heq with heq2; exact absurd heq2 ht1
      · next heq => injection heq with heq2; exact absurd heq2 ht2
      · rfl
  · intro h rs hrs
    obtain ⟨rs0, hex0, rfl, _, _⟩ := run_ok_inv env o msg h
    rw [hex0] at hrs
    injection hrs with hrs2
    subst hrs2
    exact ⟨rfl, rfl, rfl, rfl⟩
  · intro h rs dest hrs hfail hdest htype hdv
    obtain ⟨rs0, hex0, ho, hev, hwr⟩ := run_ok_inv env o msg h
    rw [hex0] at hrs
    injection hrs with hrs2
    subst hrs2
    have hpassed : (mkOutcome rs0).passed = true := by simp [mkOutcome, hfail]
    rw [hdest] at hdv
    have hmv : movementStep env (mkOutcome rs0).passed
        (validate_profiles env.profileTest env.contracts.source
          env.contracts.destination env.contracts.quarantine).snd.fst
        (validate_profiles env.profileTest env.contracts.source
          env.contracts.destination env.contracts.quarantine).snd.snd
        = (["movement_skipped"], 0) := by
      rw [hpassed, movementStep]
      simp [hdest, htype, hdv]
    rw [hev, hmv]
    constructor
    · simp
    · rw [hwr, hmv]
  · intro h rs q hrs hfail hq htype hqv
    obtain ⟨rs0, hex0, ho, hev, hwr⟩ := run_ok_inv env o msg h
    rw [hex0] at hrs
    injection hrs with hrs2
    subst hrs2
    have hpassed : (mkOutcome rs0).passed = false := by
      simp [mkOutcome]
      omega
    rw [hq] at hqv
    have hmv : movementStep env (mkOutcome rs0).passed
        (validate_profiles env.profileTest env.contracts.source
          env.contracts.destination env.contracts.quarantine).snd.fst
        (validate_profiles env.profileTest env.contracts.source
          env.contracts.destination env.contracts.quarantine).snd.snd
        = (["movement_skipped"], 0) := by
      rw [hpassed, movementStep]
      simp [hq, htype, hqv]
    rw [hev, hmv]
    constructor
    · simp
    · rw [hwr, hmv]

/-- C7 witness: a run with an unreachable s3 destination on a passing
validation: movement is skipped, no connector write happens, and the outcome
is the one decided by the (empty) rule results. -/
theorem c7_witness :
    test_profile_connectivity (fun _ => false) (some "prof") (some "local") = true ∧
    "movement_skipped" ∈ (run_contract_validation
      { contractExists := true
        contracts := ⟨"c", "1", some ⟨"local", some "data.csv", none⟩,
          some ⟨"s3", some "s3://b/", some "prof", none⟩, none⟩
        profilesLoad := .ok ()
        fetchData := .ok 3
        execEvents := []
        execResult := .ok []
        driverLoad := .ok ()
        profileTest := fun _ => false
        destWrite := .ok ()
        quarWrite := .ok () }).events ∧
    (run_contract_validation
      { contractExists := true
        contracts := ⟨"c", "1", some ⟨"local", some "data.csv", none⟩,
          some ⟨"s3", some "s3://b/", some "prof", none⟩, none⟩
        profilesLoad := .ok ()
        fetchData := .ok 3
        execEvents := []
        execResult := .ok []
        driverLoad := .ok ()
        profileTest := fun _ => false
        destWrite := .ok ()
        quarWrite := .ok () }).connectorWrites = 0 := by
  have h := c7_movement_frame
    { contractExists := true
      contracts := ⟨"c", "1", some ⟨"local", some "data.csv", none⟩,
        some ⟨"s3", some "s3://b/", some "prof", none⟩, none⟩
      profilesLoad := .ok ()
      fetchData := .ok 3
      execEvents := []
      execResult := .ok []
      driverLoad := .ok ()
      profileTest := fun _ => false
      destWrite := .ok ()
      quarWrite := .ok () }
    (mkOutcome []) "contract_validation_completed" (fun _ => false) (some "prof") "prof" "s3"
  have h5 := h.2.2.2.2.1 (by rfl) [] ⟨"s3", some "s3://b/", some "prof", none⟩
    (by rfl) (by decide) (by rfl) (by decide) (by rfl)
  exact ⟨h.1, h5.1, h5.2⟩

/-- C8: `OutlierSigma` is skipped when the column cannot be cast to numeric or
when mean / sample standard deviation are undefined; a zero sample standard
deviation is an immediate pass; otherwise it fails exactly when the number of
values with `|x − mean| > sigma · stdev` is positive and passes otherwise. -/
theorem c8_outlier_sigma (sqrtFn : ℚ → ℚ) (sigma : ℚ) (col : Column) :
    (strictCastNumeric col = none →
      (outlier_sigma_validate sqrtFn sigma col).status = "skipped") ∧
    (∀ vs, strictCastNumeric col = some vs →
      (colMean vs = none ∨ colStdSample sqrtFn vs = none) →
      (outlier_sigma_validate sqrtFn sigma col).status = "skipped") ∧
    (∀ vs m s, strictCastNumeric col = some vs → colMean vs = some m →
      colStdSample sqrtFn vs = some s → s = 0 →
      (outlier_sigma_validate sqrtFn sigma col).status = "pass") ∧
    (∀ vs m s, strictCastNumeric col = some vs → colMean vs = some m →
      colStdSample sqrtFn vs = some s → s ≠ 0 →
      (((outlier_sigma_validate sqrtFn sigma col).status = "fail" ↔
          0 < (vs.filterMap id).countP (fun x => decide (|x - m| > sigma * s))) ∧
        ((vs.filterMap id).countP (fun x => decide (|x - m| > sigma * s)) = 0 →
          (outlier_sigma_validate sqrtFn sigma col).status = "pass"))) := by
  refine ⟨?_, ?_, ?_, ?_⟩
  · intro hcast
    simp [outlier_sigma_validate, hcast]
  · intro vs hcast hnone
    rcases hnone with hm | hs
    · have hnil : vs.filterMap id = [] := by
        cases hfm : vs.filterMap id with
        | nil => rfl
        | cons a t =>
          rw [colMean] at hm
          simp [hfm] at hm
      have hs2 : colStdSample sqrtFn vs = none := by
        simp [colStdSample, hnil]
      simp [outlier_sigma_validate, hcast, hs2]
    · simp [outlier_sigma_validate, hcast, hs]
  · intro vs m s hcast hm hs hz
    subst hz
    simp [outlier_sigma_validate, hcast, hm, hs]
  · intro vs m s hcast hm hs hz
    have hstat : outlier_sigma_validate sqrtFn sigma col
        = (if 0 < (vs.filterMap id).countP (fun x => decide (|x - m| > sigma * s))
           then ⟨"fail", some ("outliers="
             ++ toString ((vs.filterMap id).countP (fun x => decide (|x - m| > sigma * s)))
             ++ ", sigma=" ++ toString sigma)⟩
           else ⟨"pass", none⟩) := by
      simp only [outlier_sigma_validate, hcast, hm, hs]
      rw [if_neg hz]
    constructor
    · rw [hstat]
      by_cases hc : 0 < (vs.filterMap id).countP (fun x => decide (|x - m| > sigma * s))
      · simp [hc]
      · simp [hc]
    · intro hc
      rw [hstat, if_neg (by omega)]

/-- C8 witness: concrete columns exercising the cast-failure skip, the
all-null skip, the single-value (undefined stdev) skip, the zero-stdev pass,
and the positive-outlier-count fail branches. -/
theorem c8_witness :
    (outlier_sigma_validate (fun q => q) 2 [some .other]).status = "skipped" ∧
    (outlier_sigma_validate (fun q => q) 2 [none, none]).status = "skipped" ∧
    (outlier_sigma_validate (fun q => q) 2 [some (.num 7)]).status = "skipped" ∧
    (outlier_sigma_validate (fun q => q) 2 [some (.num 5), some (.num 5)]).status = "pass" ∧
    (outlier_sigma_validate (fun q => q) (-1) [some (.num 1), some (.num 3)]).status = "fail" := by
  refine ⟨?_, ?_, ?_, ?_, ?_⟩
  · exact (c8_outlier_sigma (fun q => q) 2 [some .other]).1 (by decide)
  · exact (c8_outlier_sigma (fun q => q) 2 [none, none]).2.1 [none, none] (by decide)
      (Or.inl (by decide))
  · exact (c8_outlier_sigma (fun q => q) 2 [some (.num 7)]).2.1 [some 7] (by decide)
      (Or.inr (by decide))
  · exact (c8_outlier_sigma (fun q => q) 2 [some (.num 5), some (.num 5)]).2.2.1
      [some 5, some 5] 5 0 (by decide) (by norm_num [colMean, List.filterMap_cons, List.filterMap_nil])
      (by norm_num [colStdSample, List.filterMap_cons, List.filterMap_nil]) rfl
  · refine ((c8_outlier_sigma (fun q => q) (-1) [some (.num 1), some (.num 3)]).2.2.2
      [some 1, some 3] 2 2 (by decide) (by norm_num [colMean, List.filterMap_cons, List.filterMap_nil])
      (by norm_num [colStdSample, List.filterMap_cons, List.filterMap_nil]) (by norm_num)).1.mpr ?_
    refine List.countP_pos_iff.mpr ⟨1, by simp, ?_⟩
    simp only [decide_eq_true_eq]
    exact lt_of_lt_of_le (by norm_num) (abs_nonneg _)

/-! Helper lemmas: summary bookkeeping. -/

theorem mem_pushEntry_files (s : VerificationSummary) (e x : FileVerification)
    (h : x ∈ s.files) : x ∈ (pushEntry s e).files := by
  simp [pushEntry, h]

theorem self_mem_pushEntry (s : VerificationSummary) (e : FileVerification) :
    e ∈ (pushEntry s e).files := by
  simp [pushEntry]

theorem countersMatch_empty : countersMatch emptySummary := by
  simp [countersMatch, emptySummary, statusCount]

theorem countersMatch_push (s : VerificationSummary) (e : FileVerification)
    (h : countersMatch s) : countersMatch (pushEntry s e) := by
  obtain ⟨h1, h2, h3, h4, h5⟩ := h
  refine ⟨?_, ?_, ?_, ?_, ?_⟩ <;>
    simp [pushEntry, statusCount, List.countP_append, h1, h2, h3, h4, h5,
      List.countP_cons]

theorem countersMatch_single (e : FileVerification) :
    countersMatch (pushEntry emptySummary e) :=
  countersMatch_push emptySummary e countersMatch_empty

theorem foldl_push_files {α : Type} (g : α → FileVerification) :
    ∀ (ls : List α) (s : VerificationSummary),
      (ls.foldl (fun s l => pushEntry s (g l)) s).files = s.files ++ ls.map g := by
  intro ls
  induction ls with
  | nil => intro s; simp
  | cons l ls ih =>
    intro s
    rw [List.foldl_cons, ih]
    simp [pushEntry]

theorem foldl_push_counters {α : Type} (g : α → FileVerification) :
    ∀ (ls : List α) (s : VerificationSummary), countersMatch s →
      countersMatch (ls.foldl (fun s l => pushEntry s (g l)) s) := by
  intro ls
  induction ls with
  | nil => intro s hs; simpa using hs
  | cons l ls ih =>
    intro s hs
    rw [List.foldl_cons]
    exact ih _ (countersMatch_push s (g l) hs)

/-! Helper lemmas: the `pipa-core` sealed-files map. -/

theorem mapLookup_cons_eq (e : Str × Str) (m : HMap) (k : Str) (h : e.fst = k) :
    mapLookup (e :: m) k = some e.snd := by
  simp only [mapLookup]
  rw [List.find?_cons_of_pos _ (by simp [h])]
  rfl

theorem mapLookup_cons_ne (e : Str × Str) (m : HMap) (k : Str) (h : e.fst ≠ k) :
    mapLookup (e :: m) k = mapLookup m k := by
  simp only [mapLookup]
  rw [List.find?_cons_of_neg _ (by simp [h])]

theorem mapLookup_remove (m : HMap) (k k' : Str) :
    mapLookup (mapRemove m k) k' = if k' = k then none else mapLookup m k' := by
  induction m with
  | nil => simp [mapRemove, mapLookup, ite_self]
  | cons e m ih =>
    simp only [mapRemove] at ih ⊢
    rw [List.filter_cons]
    by_cases hek : e.fst = k
    · rw [if_neg (by simp [hek]), ih]
      by_cases hk' : k' = k
      · rw [if_pos hk', if_pos hk']
      · rw [if_neg hk', if_neg hk',
          mapLookup_cons_ne e m k' (by rw [hek]; exact fun he => hk' he.symm)]
    · rw [if_pos (by simp [hek])]
      by_cases hek' : e.fst = k'
      · have hkk : ¬ k' = k := fun hx => hek (hek'.trans hx)
        rw [if_neg hkk, mapLookup_cons_eq e _ k' hek', mapLookup_cons_eq e m k' hek']
      · rw [mapLookup_cons_ne e _ k' hek', mapLookup_cons_ne e m k' hek', ih]

theorem mapLookup_mem : ∀ (m : HMap) (k v : Str), mapLookup m k = some v → (k, v) ∈ m := by
  intro m
  induction m with
  | nil => intro k v h; simp [mapLookup] at h
  | cons e m ih =>
    intro k v h
    rw [mapLookup, List.find?] at h
    cases hek : (e.fst == k) with
    | true =>
      rw [hek] at h
      simp at h
      have : e = (k, v) := by
        have h1 : e.fst = k := by simpa using hek
        cases e
        simp_all
      rw [← this]
      exact List.mem_cons_self e m
    | false =>
      rw [hek] at h
      exact List.mem_cons_of_mem e (ih k v h)

theorem diskLookup_none_names (d : Disk) (f : Str) (h : diskLookup d f = none) :
    ∀ fc ∈ d, fc.fst ≠ f := by
  intro fc hfc
  simp only [diskLookup] at h
  cases hf : List.find? (fun e => e.fst == f) d with
  | some e => rw [hf] at h; simp at h
  | none =>
    have := List.find?_eq_none.mp hf fc hfc
    simpa using this

/-! Helper lemmas: the three phases of `pipa-core` `verify_all`. -/

theorem coreLedgerPhase_files_mono : ∀ (ls : List Str) (m : HMap) (s : VerificationSummary)
    (x : FileVerification), x ∈ s.files → x ∈ (coreLedgerPhase m s ls).snd.files := by
  intro ls
  induction ls with
  | nil => intro m s x hx; simpa [coreLedgerPhase] using hx
  | cons line ls ih =>
    intro m s x hx
    rw [coreLedgerPhase]
    rcases hsw : splitWhitespace line with _ | ⟨a, _ | ⟨b, _ | ⟨c, r⟩⟩⟩
    · exact ih m _ x (mem_pushEntry_files s _ x hx)
    · exact ih m _ x (mem_pushEntry_files s _ x hx)
    · exact ih m _ x (mem_pushEntry_files s _ x hx)
    · exact ih _ s x hx

theorem coreLedgerPhase_counters : ∀ (ls : List Str) (m : HMap) (s : VerificationSummary),
    countersMatch s → countersMatch (coreLedgerPhase m s ls).snd := by
  intro ls
  induction ls with
  | nil => intro m s hs; simpa [coreLedgerPhase] using hs
  | cons line ls ih =>
    intro m s hs
    rw [coreLedgerPhase]
    rcases hsw : splitWhitespace line with _ | ⟨a, _ | ⟨b, _ | ⟨c, r⟩⟩⟩
    · exact ih m _ (countersMatch_push s _ hs)
    · exact ih m _ (countersMatch_push s _ hs)
    · exact ih m _ (countersMatch_push s _ hs)
    · exact ih _ s hs

theorem coreLedgerPhase_malformed_mem : ∀ (ls : List Str) (m : HMap)
    (s : VerificationSummary) (line : Str), line ∈ ls → (splitWhitespace line).length < 3 →
    (⟨line, .malformed, none, none⟩ : FileVerification)
      ∈ (coreLedgerPhase m s ls).snd.files := by
  intro ls
  induction ls with
  | nil => intro m s line h; cases h
  | cons l0 ls ih =>
    intro m s line hmem hlen
    rcases List.mem_cons.mp hmem with heq | hmem2
    · subst heq
      rw [coreLedgerPhase]
      rcases hsw : splitWhitespace line with _ | ⟨a, _ | ⟨b, _ | ⟨c, r⟩⟩⟩
      · exact coreLedgerPhase_files_mono ls m _ _ (self_mem_pushEntry s _)
      · exact coreLedgerPhase_files_mono ls m _ _ (self_mem_pushEntry s _)
      · exact coreLedgerPhase_files_mono ls m _ _ (self_mem_pushEntry s _)
      · rw [hsw] at hlen; simp only [List.length_cons] at hlen; omega
    · rw [coreLedgerPhase]
      rcases hsw : splitWhitespace l0 with _ | ⟨a, _ | ⟨b, _ | ⟨c, r⟩⟩⟩
      · exact ih m _ line hmem2 hlen
      · exact ih m _ line hmem2 hlen
      · exact ih m _ line hmem2 hlen
      · exact ih _ s line hmem2 hlen

theorem coreDiskPhase_files_mono (hash : Str → Str) : ∀ (d : Disk) (m : HMap)
    (s : VerificationSummary) (x : FileVerification), x ∈ s.files →
    x ∈ (coreDiskPhase hash m s d).snd.files := by
  intro d
  induction d with
  | nil => intro m s x hx; simpa [coreDiskPhase] using hx
  | cons e d ih =>
    intro m s x hx
    rw [coreDiskPhase]
    cases hl : mapLookup m e.fst with
    | some stored => exact ih _ _ x (mem_pushEntry_files s _ x hx)
    | none => exact ih m _ x (mem_pushEntry_files s _ x hx)

theorem coreDiskPhase_counters (hash : Str → Str) : ∀ (d : Disk) (m : HMap)
    (s : VerificationSummary), countersMatch s →
    countersMatch (coreDiskPhase hash m s d).snd := by
  intro d
  induction d with
  | nil => intro m s hs; simpa [coreDiskPhase] using hs
  | cons e d ih =>
    intro m s hs
    rw [coreDiskPhase]
    cases hl : mapLookup m e.fst with
    | some stored => exact ih _ _ (countersMatch_push s _ hs)
    | none => exact ih m _ (countersMatch_push s _ hs)

theorem coreDiskPhase_unsealed_mem (hash : Str → Str) : ∀ (d : Disk) (m : HMap)
    (s : VerificationSummary) (fc : Str × Str), fc ∈ d → mapLookup m fc.fst = none →
    (⟨fc.fst, .unsealed, none, some (hash fc.snd)⟩ : FileVerification)
      ∈ (coreDiskPhase hash m s d).snd.files := by
  intro d
  induction d with
  | nil => intro m s fc h; cases h
  | cons e d ih =>
    intro m s fc hmem hnone
    rcases List.mem_cons.mp hmem with heq | hmem2
    · subst heq
      rw [coreDiskPhase, hnone]
      exact coreDiskPhase_files_mono hash d m _ _ (self_mem_pushEntry s _)
    · rw [coreDiskPhase]
      cases hl : mapLookup m e.fst with
      | some stored =>
        refine ih _ _ fc hmem2 ?_
        rw [mapLookup_remove]
        split <;> simp [hnone]
      | none => exact ih m _ fc hmem2 hnone

theorem coreDiskPhase_sealed_mem (hash : Str → Str) : ∀ (d : Disk) (m : HMap)
    (s : VerificationSummary) (fc : Str × Str) (stored : Str), fc ∈ d →
    (d.map Prod.fst).Nodup → mapLookup m fc.fst = some stored →
    (if stored == hash fc.snd
      then (⟨fc.fst, .verified, some stored, some (hash fc.snd)⟩ : FileVerification)
      else ⟨fc.fst, .mismatched, some stored, some (hash fc.snd)⟩)
      ∈ (coreDiskPhase hash m s d).snd.files := by
  intro d
  induction d with
  | nil => intro m s fc stored h; cases h
  | cons e d ih =>
    intro m s fc stored hmem hnd hsome
    rcases List.mem_cons.mp hmem with heq | hmem2
    · subst heq
      rw [coreDiskPhase, hsome]
      exact coreDiskPhase_files_mono hash d _ _ _ (self_mem_pushEntry s _)
    · have hnd' : e.fst ∉ d.map Prod.fst ∧ (d.map Prod.fst).Nodup := by
        rw [List.map_cons] at hnd
        exact List.nodup_cons.mp hnd
      have hne : e.fst ≠ fc.fst := by
        intro he
        exact hnd'.1 (he ▸ List.mem_map_of_mem Prod.fst hmem2)
      have hnd2 : (d.map Prod.fst).Nodup := hnd'.2
      rw [coreDiskPhase]
      cases hl : mapLookup m e.fst with
      | some st2 =>
        refine ih _ _ fc stored hmem2 hnd2 ?_
        rw [mapLookup_remove, if_neg (fun hx => hne hx.symm)]
        exact hsome
      | none => exact ih m _ fc stored hmem2 hnd2 hsome

theorem coreDiskPhase_map_preserved (hash : Str → Str) : ∀ (d : Disk) (m : HMap)
    (s : VerificationSummary) (f : Str), (∀ fc ∈ d, fc.fst ≠ f) →
    mapLookup (coreDiskPhase hash m s d).fst f = mapLookup m f := by
  intro d
  induction d with
  | nil => intro m s f _; simp [coreDiskPhase]
  | cons e d ih =>
    intro m s f hall
    rw [coreDiskPhase]
    cases hl : mapLookup m e.fst with
    | some stored =>
      rw [ih _ _ f (fun fc hfc => hall fc (List.mem_cons_of_mem e hfc))]
      rw [mapLookup_remove, if_neg]
      intro he
      exact hall e (List.mem_cons_self e d) (by rw [he])
    | none => exact ih m _ f (fun fc hfc => hall fc (List.mem_cons_of_mem e hfc))

theorem coreMissingPhase_files (s : VerificationSummary) (m : HMap) :
    (coreMissingPhase s m).files
      = s.files ++ m.map (fun e => ⟨e.fst, .missing, some e.snd, none⟩) :=
  foldl_push_files
    (fun (e : Str × Str) => (⟨e.fst, .missing, some e.snd, none⟩ : FileVerification)) m s

theorem coreMissingPhase_mem (s : VerificationSummary) (m : HMap) (k v : Str)
    (h : (k, v) ∈ m) :
    (⟨k, .missing, some v, none⟩ : FileVerification) ∈ (coreMissingPhase s m).files := by
  rw [coreMissingPhase_files]
  refine List.mem_append_right _ ?_
  have := List.mem_map_of_mem (fun e => (⟨e.fst, .missing, some e.snd, none⟩ : FileVerification)) h
  simpa using this

theorem coreMissingPhase_mem_files (s : VerificationSummary) (m : HMap)
    (x : FileVerification) (h : x ∈ s.files) : x ∈ (coreMissingPhase s m).files := by
  rw [coreMissingPhase_files]
  exact List.mem_append_left _ h

theorem coreMissingPhase_counters (s : VerificationSummary) (m : HMap)
    (h : countersMatch s) : countersMatch (coreMissingPhase s m) :=
  foldl_push_counters
    (fun (e : Str × Str) => (⟨e.fst, .missing, some e.snd, none⟩ : FileVerification)) m s h

theorem classifyLedgerLine_not_unsealed (hash : Str → Str) (disk : Disk) (line : Str) :
    (classifyLedgerLine hash disk line).status ≠ .unsealed := by
  rw [classifyLedgerLine]
  rcases hsw : splitWhitespace line with _ | ⟨a, _ | ⟨b, _ | ⟨c, r⟩⟩⟩
  · simp
  · simp
  · simp
  · cases hdl : diskLookup disk b with
    | none => simp [hdl]
    | some content =>
      simp only [hdl]
      split <;> simp

theorem verify_date_counters (hash : Str → Str) (dirEx : Bool) (disk : Disk)
    (p : Str) (y : Str) (dopt : Option Str) :
    countersMatch (verify_date hash dirEx disk p y dopt) := by
  rw [verify_date.eq_def]
  repeat' first
    | exact countersMatch_empty
    | exact countersMatch_single _
    | split
    | dsimp only

theorem verify_all_pipa_counters (hash : Str → Str) (dirEx : Bool) (disk : Disk)
    (p : Str) : countersMatch (verify_all_pipa hash dirEx disk p) := by
  rw [verify_all_pipa]
  split
  · exact countersMatch_empty
  · split
    · exact countersMatch_empty
    · exact foldl_push_counters (classifyLedgerLine hash disk) (rustLines p)
        emptySummary countersMatch_empty

theorem verify_all_core_counters (hash : Str → Str) (dirEx : Bool) (disk : Disk)
    (p : Str) : countersMatch (verify_all_core hash dirEx disk p) := by
  simp only [verify_all_core]
  split
  · exact coreMissingPhase_counters _ _
      (coreLedgerPhase_counters (rustLines p) [] emptySummary countersMatch_empty)
  · exact coreMissingPhase_counters _ _
      (coreDiskPhase_counters hash disk _ _
        (coreLedgerPhase_counters (rustLines p) [] emptySummary countersMatch_empty))

/-- C4 counterexample: the `pipa` crate's `verify_all` never reports
`Unsealed`.  Concretely, with an on-disk shard absent from the (nonempty)
ledger, `verify_all` returns `unsealed = 0` and no entry at all for that
file, refuting the claim for the all-dates scope of that crate. -/
theorem c4_counterexample :
    diskLookup [("audit-2025-10-10.jsonl".toList, "x".toList)]
      "audit-2025-10-10.jsonl".toList = some "x".toList ∧
    strContains "t audit-2025-10-09.jsonl h\n".toList
      "audit-2025-10-10.jsonl".toList = false ∧
    (verify_all_pipa (fun _ => "h".toList) true
      [("audit-2025-10-10.jsonl".toList, "x".toList)]
      "t audit-2025-10-09.jsonl h\n".toList).unsealed = 0 ∧
    (∀ e ∈ (verify_all_pipa (fun _ => "h".toList) true
        [("audit-2025-10-10.jsonl".toList, "x".toList)]
        "t audit-2025-10-09.jsonl h\n".toList).files,
      e.filename ≠ "audit-2025-10-10.jsonl".toList) := by
  refine ⟨by decide, by decide, by decide, by decide⟩

/-- C4 amended: classification facts that do hold.  `verify_date` classifies
its one expected file as Missing / Unsealed / Verified / Mismatched /
Malformed exactly as claimed; the `pipa` crate's `verify_all` produces exactly
one entry per ledger line, classified Malformed / Missing / Verified /
Mismatched (never Unsealed: on-disk files absent from the ledger produce no
entry); the `pipa-core` crate's `verify_all` additionally reports on-disk
files absent from its sealed-files map as Unsealed; and in all scopes each
aggregate counter equals the number of per-file entries of that status. -/
theorem c4_amended (hash : Str → Str) (disk : Disk) (p : Str) :
    (∀ d target yesterday, (parseDateYmd d).map formatYmd = some target →
      p.isEmpty = false →
      (diskLookup disk (shardFileName target) = none →
        verify_date hash true disk p yesterday (some d)
          = pushEntry emptySummary ⟨shardFileName target, .missing, none, none⟩) ∧
      (∀ content, diskLookup disk (shardFileName target) = some content →
        ((rustLines p).find? (fun l => strContains l (shardFileName target)) = none →
          verify_date hash true disk p yesterday (some d)
            = pushEntry emptySummary ⟨shardFileName target, .unsealed, none, none⟩) ∧
        (∀ line,
          (rustLines p).find? (fun l => strContains l (shardFileName target)) = some line →
          ((splitWhitespace line).length < 3 →
            verify_date hash true disk p yesterday (some d)
              = pushEntry emptySummary ⟨shardFileName target, .malformed, none, none⟩) ∧
          (∀ ts fn stored rest, splitWhitespace line = ts :: fn :: stored :: rest →
            (stored = hash content →
              verify_date hash true disk p yesterday (some d)
                = pushEntry emptySummary
                    ⟨shardFileName target, .verified, some stored, some (hash content)⟩) ∧
            (stored ≠ hash content →
              verify_date hash true disk p yesterday (some d)
                = pushEntry emptySummary
                    ⟨shardFileName target, .mismatched, some stored,
                      some (hash content)⟩))))) ∧
    (p.isEmpty = false →
      (verify_all_pipa hash true disk p).files
        = (rustLines p).map (classifyLedgerLine hash disk)) ∧
    (∀ e ∈ (verify_all_pipa hash true disk p).files, e.status ≠ .unsealed) ∧
    (∀ line ts fn stored rest, splitWhitespace line = ts :: fn :: stored :: rest →
      (diskLookup disk fn = none →
        classifyLedgerLine hash disk line = ⟨fn, .missing, some stored, none⟩) ∧
      (∀ c, diskLookup disk fn = some c →
        (stored = hash c → classifyLedgerLine hash disk line
            = ⟨fn, .verified, some stored, some (hash c)⟩) ∧
        (stored ≠ hash c → classifyLedgerLine hash disk line
            = ⟨fn, .mismatched, some stored, some (hash c)⟩))) ∧
    (∀ line, (splitWhitespace line).length < 3 →
      classifyLedgerLine hash disk line = ⟨line, .malformed, none, none⟩) ∧
    (∀ line ∈ rustLines p, (splitWhitespace line).length < 3 →
      (⟨line, .malformed, none, none⟩ : FileVerification)
        ∈ (verify_all_core hash true disk p).files) ∧
    (∀ fc ∈ disk,
      mapLookup (coreLedgerPhase [] emptySummary (rustLines p)).fst fc.fst = none →
      (⟨fc.fst, .unsealed, none, some (hash fc.snd)⟩ : FileVerification)
        ∈ (verify_all_core hash true disk p).files) ∧
    (∀ fc stored, fc ∈ disk → (disk.map Prod.fst).Nodup →
      mapLookup (coreLedgerPhase [] emptySummary (rustLines p)).fst fc.fst = some stored →
      (stored = hash fc.snd →
        (⟨fc.fst, .verified, some stored, some (hash fc.snd)⟩ : FileVerification)
          ∈ (verify_all_core hash true disk p).files) ∧
      (stored ≠ hash fc.snd →
        (⟨fc.fst, .mismatched, some stored, some (hash fc.snd)⟩ : FileVerification)
          ∈ (verify_all_core hash true disk p).files)) ∧
    (∀ f stored,
      mapLookup (coreLedgerPhase [] emptySummary (rustLines p)).fst f = some stored →
      diskLookup disk f = none →
      (⟨f, .missing, some stored, none⟩ : FileVerification)
        ∈ (verify_all_core hash true disk p).files) ∧
    countersMatch (verify_all_pipa hash true disk p) ∧
    countersMatch (verify_all_core hash true disk p) ∧
    (∀ dirEx yesterday dopt, countersMatch (verify_date hash dirEx disk p yesterday dopt)) := by
  refine ⟨?_, ?_, ?_, ?_, ?_, ?_, ?_, ?_, ?_,
    verify_all_pipa_counters hash true disk p,
    verify_all_core_counters hash true disk p,
    fun dirEx yesterday dopt => verify_date_counters hash dirEx disk p yesterday dopt⟩
  · intro d target yesterday hTarget hp
    refine ⟨?_, ?_⟩
    · intro hdl
      rw [verify_date]
      simp [hTarget, hp, hdl]
    · intro content hdl
      refine ⟨?_, ?_⟩
      · intro hfind
        rw [verify_date]
        simp [hTarget, hp, hdl, hfind]
      · intro line hfind
        refine ⟨?_, ?_⟩
        · intro hlen
          rw [verify_date]
          rcases hsw : splitWhitespace line with _ | ⟨a, _ | ⟨b, _ | ⟨c, r⟩⟩⟩
          · simp [hTarget, hp, hdl, hfind, hsw]
          · simp [hTarget, hp, hdl, hfind, hsw]
          · simp [hTarget, hp, hdl, hfind, hsw]
          · rw [hsw] at hlen; simp only [List.length_cons] at hlen; omega
        · intro ts fn stored rest hsw
          refine ⟨?_, ?_⟩
          · intro hst
            subst hst
            rw [verify_date]
            simp [hTarget, hp, hdl, hfind, hsw]
          · intro hst
            have hbe : (stored == hash content) = false := by simpa using hst
            rw [verify_date]
            simp [hTarget, hp, hdl, hfind, hsw, hbe]
  · intro hp
    rw [verify_all_pipa]
    simp only [hp, Bool.not_true, Bool.false_eq_true, if_false]
    rw [foldl_push_files (classifyLedgerLine hash disk) (rustLines p) emptySummary]
    simp [emptySummary]
  · intro e he
    rw [verify_all_pipa] at he
    by_cases hp : p.isEmpty
    · simp [hp, emptySummary] at he
    · simp only [hp, Bool.not_true, Bool.false_eq_true, if_false] at he
      rw [foldl_push_files (classifyLedgerLine hash disk) (rustLines p) emptySummary] at he
      simp only [emptySummary, List.nil_append] at he
      obtain ⟨l, _, rfl⟩ := List.mem_map.mp he
      exact classifyLedgerLine_not_unsealed hash disk l
  · intro line ts fn stored rest hsw
    refine ⟨?_, ?_⟩
    · intro hdl
      rw [classifyLedgerLine, hsw]
      simp [hdl]
    · intro c hdl
      refine ⟨?_, ?_⟩
      · intro hst
        subst hst
        rw [classifyLedgerLine, hsw]
        simp [hdl]
      · intro hst
        have hbe : (stored == hash c) = false := by simpa using hst
        rw [classifyLedgerLine, hsw]
        simp [hdl, hbe]
  · intro line hlen
    rw [classifyLedgerLine]
    rcases hsw : splitWhitespace line with _ | ⟨a, _ | ⟨b, _ | ⟨c, r⟩⟩⟩
    · rfl
    · rfl
    · rfl
    · rw [hsw] at hlen; simp only [List.length_cons] at hlen; omega
  · intro line hl hlen
    simp only [verify_all_core, Bool.not_true, Bool.false_eq_true, if_false]
    exact coreMissingPhase_mem_files _ _ _
      (coreDiskPhase_files_mono hash disk _ _ _
        (coreLedgerPhase_malformed_mem (rustLines p) [] emptySummary line hl hlen))
  · intro fc hmem hnone
    simp only [verify_all_core, Bool.not_true, Bool.false_eq_true, if_false]
    exact coreMissingPhase_mem_files _ _ _
      (coreDiskPhase_unsealed_mem hash disk _ _ fc hmem hnone)
  · intro fc stored hmem hnd hsome
    constructor
    · intro hst
      have h := coreDiskPhase_sealed_mem hash disk
        (coreLedgerPhase [] emptySummary (rustLines p)).fst
        (coreLedgerPhase [] emptySummary (rustLines p)).snd fc stored hmem hnd hsome
      rw [if_pos (by simpa using hst)] at h
      simp only [verify_all_core, Bool.not_true, Bool.false_eq_true, if_false]
      exact coreMissingPhase_mem_files _ _ _ h
    · intro hst
      have h := coreDiskPhase_sealed_mem hash disk
        (coreLedgerPhase [] emptySummary (rustLines p)).fst
        (coreLedgerPhase [] emptySummary (rustLines p)).snd fc stored hmem hnd hsome
      rw [if_neg (by simpa using hst)] at h
      simp only [verify_all_core, Bool.not_true, Bool.false_eq_true, if_false]
      exact coreMissingPhase_mem_files _ _ _ h
  · intro f stored hsome hdl
    have hnames := diskLookup_none_names disk f hdl
    have hpres := coreDiskPhase_map_preserved hash disk
      (coreLedgerPhase [] emptySummary (rustLines p)).fst
      (coreLedgerPhase [] emptySummary (rustLines p)).snd f hnames
    have hm : (f, stored)
        ∈ (coreDiskPhase hash (coreLedgerPhase [] emptySummary (rustLines p)).fst
            (coreLedgerPhase [] emptySummary (rustLines p)).snd disk).fst :=
      mapLookup_mem _ f stored (by rw [hpres]; exact hsome)
    simp only [verify_all_core, Bool.not_true, Bool.false_eq_true, if_false]
    exact coreMissingPhase_mem _ _ f stored hm

/-- C4 amended witness: on a concrete state with one malformed ledger line,
one verified sealed file, one missing sealed file and one unsealed disk file,
the amended classification facts hold. -/
theorem c4_witness :
    (⟨"audit-2025-10-10.jsonl".toList, .unsealed, none, some "h".toList⟩ : FileVerification)
      ∈ (verify_all_core (fun _ => "h".toList) true
          [("audit-2025-10-10.jsonl".toList, "x".toList)]
          "t audit-2025-10-09.jsonl h\n".toList).files ∧
    verify_date (fun _ => "h".toList) true
      [("audit-2025-10-10.jsonl".toList, "x".toList)]
      "t audit-2025-10-09.jsonl h\n".toList "y".toList (some "2025-10-10".toList)
      = pushEntry emptySummary
          ⟨shardFileName "2025-10-10".toList, .unsealed, none, none⟩ := by
  have h := c4_amended (fun _ => "h".toList)
    [("audit-2025-10-10.jsonl".toList, "x".toList)]
    "t audit-2025-10-09.jsonl h\n".toList
  constructor
  · exact h.2.2.2.2.2.2.1 ("audit-2025-10-10.jsonl".toList, "x".toList)
      (by decide) (by decide)
  · exact ((h.1 "2025-10-10".toList "2025-10-10".toList "y".toList (by decide)
      (by decide)).2 "x".toList (by decide)).1 (by decide)

end PipeAudit
